import Mathlib

/-!
Verification development for the `fact-check-bot` WhatsApp webhook service.

The repository is JavaScript; we give a shallow embedding of its
string-processing pipeline and of the two `/whatsapp` webhook handlers
(`src/index.js` and the second handler variant shipped in the repository,
here called the "v2" handler) over `List Char`.

JavaScript strings are sequences of UTF-16 code units; `String.prototype.length`,
`substring` and the 1500/1200/150/120/1450 character budgets in the code count
code units.  We model a JS string as a `List Char` of Unicode scalar values and
count code units with `charW` (2 for astral-plane characters such as 📋, else 1).
`jsTake n` models `substring(0, n)`: it takes code units greedily; when `n`
falls inside an astral character, JS would keep a lone surrogate (not a scalar
value), our model drops that character, which can only shorten the result.
-/

set_option maxRecDepth 1000000

namespace FactCheckBot

/-- Abbreviation: the character list of a Lean string literal. -/
def str (s : String) : List Char := s.data

/-- UTF-16 width of a character: astral-plane characters take two code units. -/
def charW (c : Char) : Nat := if c.val < 65536 then 1 else 2

/-- JS `string.length`: number of UTF-16 code units. -/
def jsLen (l : List Char) : Nat := (l.map charW).sum

/-- JS `substring(0, n)` measured in UTF-16 code units (see module comment). -/
def jsTake : Nat → List Char → List Char
  | _, [] => []
  | n, c :: cs => if charW c ≤ n then c :: jsTake (n - charW c) cs else []

/-- The JS regex `\s` class / `String.prototype.trim` whitespace set. -/
def isJsWs (c : Char) : Bool :=
  c = ' ' || c = '\t' || c = '\n' || c.val = 11 || c.val = 12 || c = '\r' ||
  c.val = 160 || c.val = 5760 || (8192 ≤ c.val && c.val ≤ 8202) ||
  c.val = 8232 || c.val = 8233 || c.val = 8239 || c.val = 8287 ||
  c.val = 12288 || c.val = 65279

/-- JS regex line terminators (what `.` refuses to match and what `^`/m follows). -/
def isLineTerm (c : Char) : Bool :=
  c = '\n' || c = '\r' || c.val = 8232 || c.val = 8233

/-- The control-character class `[\x00-\x08\x0B\x0C\x0E-\x1F\x7F]` stripped by
`sanitizeForXML` (tab, LF and CR are deliberately excluded in the source). -/
def isStripCtl (c : Char) : Bool :=
  c.val ≤ 8 || c.val = 11 || c.val = 12 || (14 ≤ c.val && c.val ≤ 31) || c.val = 127

/-- Boolean list-prefix test. -/
def isPrefixL : List Char → List Char → Bool
  | [], _ => true
  | _ :: _, [] => false
  | p :: ps, c :: cs => p == c && isPrefixL ps cs

/-- Split a list at the first occurrence of the pattern `p`:
`splitFirst p l = some (a, b)` with `l = a ++ p ++ b` and no occurrence of `p`
starting inside `a`.  Models the scan of a left-most regex literal match. -/
def splitFirst (p : List Char) : List Char → Option (List Char × List Char)
  | [] => if isPrefixL p [] then some ([], []) else none
  | c :: cs =>
    if isPrefixL p (c :: cs) then some ([], (c :: cs).drop p.length)
    else
      match splitFirst p cs with
      | some (a, b) => some (c :: a, b)
      | none => none

/-- Split a list at the last occurrence of the character `ch`:
`some (p, q)` with `l = p ++ [ch] ++ q` and `ch ∉ q`. -/
def splitLastC (ch : Char) (l : List Char) : Option (List Char × List Char) :=
  match splitFirst [ch] l.reverse with
  | some (ra, rb) => some (rb.reverse, ra.reverse)
  | none => none

/-- JS `String.prototype.trim` (strips `isJsWs` from both ends). -/
def jsTrim (l : List Char) : List Char :=
  ((l.dropWhile isJsWs).reverse.dropWhile isJsWs).reverse

/-- JS `split('\n')` (keeps empty segments, `"" → [""]`). -/
def jsSplitNl : List Char → List (List Char)
  | [] => [[]]
  | c :: cs =>
    if c = '\n' then [] :: jsSplitNl cs
    else
      match jsSplitNl cs with
      | s :: rest => (c :: s) :: rest
      | [] => [[c]]

/-- Substring test, via `splitFirst`. -/
def hasSub (p l : List Char) : Bool := (splitFirst p l).isSome

/-- Verification predicate: scanning left to right, no line-terminator-free
segment of the text contains two asterisks.  `seen` records whether a `*` has
already occurred in the current segment. -/
def starScan : Bool → List Char → Bool
  | _, [] => true
  | seen, c :: cs =>
    if isLineTerm c then starScan false cs
    else if c = '*' then (!seen && starScan true cs)
    else starScan seen cs

/-!
## The regex replacement passes

Each JS `.replace(/…/g, …)` is modelled as a left-to-right scan.  The scanners
take a fuel argument so that they are structurally recursive (every call site
passes `length + 1`, which is enough fuel: each step either consumes a match of
at least one character or advances one character).
-/

/-- One `g`-replace of a lazy pair pattern `opn(.*?)cls` (e.g. `\*\*(.*?)\*\*`).
JS `.` does not cross line terminators, so the closing delimiter is searched
only inside the current line segment; on failure the scan advances one
character, as the regex engine does. `rep` builds the replacement from the
captured group. -/
def lazyPairsF (opn cls : List Char) (rep : List Char → List Char) :
    Nat → List Char → List Char
  | 0, l => l
  | _ + 1, [] => []
  | f + 1, c :: cs =>
    if isPrefixL opn (c :: cs) then
      let rest := (c :: cs).drop opn.length
      let seg := rest.takeWhile (fun x => !(isLineTerm x))
      match splitFirst cls seg with
      | some (mid, segRest) =>
          rep mid ++ lazyPairsF opn cls rep f (segRest ++ rest.drop seg.length)
      | none => c :: lazyPairsF opn cls rep f cs
    else c :: lazyPairsF opn cls rep f cs

/-- Character class of `/\[([\d,\[\]]+)\]/`. -/
def refClass (c : Char) : Bool := c.isDigit || c = ',' || c = '[' || c = ']'

/-- One `g`-replace of `/\[([\d,\[\]]+)\]/` by the empty string (the citation
marker stripper).  The greedy group backtracks to the last `]` inside the
maximal class run; the group must be non-empty. -/
def stripRefsF : Nat → List Char → List Char
  | 0, l => l
  | _ + 1, [] => []
  | f + 1, c :: cs =>
    if c = '[' then
      let run := cs.takeWhile refClass
      match splitLastC ']' run with
      | some (p, q) =>
          if p.isEmpty then c :: stripRefsF f cs
          else stripRefsF f (q ++ cs.drop run.length)
      | none => c :: stripRefsF f cs
    else c :: stripRefsF f cs

/-- One `g`-replace of `/\n\s*\n\s*\n/` by `"\n\n"`.  A match needs at least
two further newlines inside the whitespace run following a newline; greedy
backtracking makes the match extend to the last newline of the run. -/
def collapseNLF : Nat → List Char → List Char
  | 0, l => l
  | _ + 1, [] => []
  | f + 1, c :: cs =>
    if c = '\n' then
      let run := cs.takeWhile isJsWs
      match splitLastC '\n' run with
      | some (p, q) =>
          if p.contains '\n' then
            '\n' :: '\n' :: collapseNLF f (q ++ cs.drop run.length)
          else c :: collapseNLF f cs
      | none => c :: collapseNLF f cs
    else c :: collapseNLF f cs

/-- `g`-replace of a single character by a fixed string (the XML escapes);
the replacement is not rescanned, matching JS semantics. -/
def replaceCharL (t : Char) (r : List Char) : List Char → List Char
  | [] => []
  | c :: cs => if c = t then r ++ replaceCharL t r cs else c :: replaceCharL t r cs

/-- One `g`/`m`-replace of `/^#{1,3}\s+(.*)/` by `*$1*` (headings to bold,
`src/index.js`).  `atStart` tracks whether the scan position is at a line
start; `\s+` is greedy and may cross newlines, `.` stops at line terminators. -/
def headerScanF : Nat → Bool → List Char → List Char
  | 0, _, l => l
  | _ + 1, _, [] => []
  | f + 1, atStart, c :: cs =>
    if atStart && c = '#' then
      let hashes := cs.takeWhile (fun x => x = '#')
      let afterHash := cs.drop hashes.length
      if hashes.length + 1 ≤ 3 && (afterHash.headD 'x' |> isJsWs) && !afterHash.isEmpty then
        let ws := afterHash.takeWhile isJsWs
        let rest := afterHash.drop ws.length
        let line := rest.takeWhile (fun x => !(isLineTerm x))
        '*' :: (line ++ '*' :: headerScanF f false (rest.drop line.length))
      else c :: headerScanF f false cs
    else c :: headerScanF f (isLineTerm c) cs

/-- One `g`/`m`-replace of `/^•\s+/` by `"• "` (`src/index.js`).  Because `\s+`
may consume newlines, the continuation can again be at a line start. -/
def bulletScanF : Nat → Bool → List Char → List Char
  | 0, _, l => l
  | _ + 1, _, [] => []
  | f + 1, atStart, c :: cs =>
    if atStart && c = '•' && (cs.headD 'x' |> isJsWs) && !cs.isEmpty then
      let ws := cs.takeWhile isJsWs
      '•' :: ' ' :: bulletScanF f (isLineTerm (ws.getLastD 'x')) (cs.drop ws.length)
    else c :: bulletScanF f (isLineTerm c) cs

/-- One `g`-replace of `/\n{3,}/` by `"\n\n"` (`src/index.js`). -/
def nlRun3F : Nat → List Char → List Char
  | 0, l => l
  | _ + 1, [] => []
  | f + 1, c :: cs =>
    if c = '\n' then
      let run := cs.takeWhile (fun x => x = '\n')
      if 2 ≤ run.length then '\n' :: '\n' :: nlRun3F f (cs.drop run.length)
      else c :: nlRun3F f cs
    else c :: nlRun3F f cs

/-!
## `sanitizeForXML`, `formatResponse`, `getVerificationStatus`, `extractURL`
-/

/-- `sanitizeForXML` (v2 handler file): strip `**bold**` and `*italic*` pairs,
convert `- **…**` bullets, strip `[1][2]`-style citation markers, collapse
newline runs, escape `&` `<` `>`, strip control characters, trim. -/
def sanitizeForXML (l : List Char) : List Char :=
  let s1 := lazyPairsF (str "**") (str "**") id (l.length + 1) l
  let s2 := lazyPairsF (str "*") (str "*") id (s1.length + 1) s1
  let s3 := lazyPairsF (str "- **") (str "**") (fun m => str "• " ++ m) (s2.length + 1) s2
  let s4 := stripRefsF (s3.length + 1) s3
  let s5 := collapseNLF (s4.length + 1) s4
  let s6 := replaceCharL '&' (str "&amp;") s5
  let s7 := replaceCharL '<' (str "&lt;") s6
  let s8 := replaceCharL '>' (str "&gt;") s7
  let s9 := s8.filter (fun c => !(isStripCtl c))
  jsTrim s9

/-- `formatResponse` (`src/index.js`): `**bold**` → `*bold*`, `*italic*` →
`_italic_`, 1–3 `#` headings → `*heading*`, normalise `• ` bullets, collapse
3+ newline runs. -/
def formatResponse (l : List Char) : List Char :=
  let s1 := lazyPairsF (str "**") (str "**") (fun m => '*' :: (m ++ ['*'])) (l.length + 1) l
  let s2 := lazyPairsF (str "*") (str "*") (fun m => '_' :: (m ++ ['_'])) (s1.length + 1) s1
  let s3 := headerScanF (s2.length + 1) true s2
  let s4 := bulletScanF (s3.length + 1) true s3
  nlRun3F (s4.length + 1) s4

/-- `getVerificationStatus` (v2 handler file): keyword scan over the lowered
answer; positive indicators checked before negative ones.  `toLowerCase` is
modelled by the ASCII case map (all scanned keywords are ASCII). -/
def getVerificationStatus (r : List Char) : List Char :=
  let low := r.map Char.toLower
  if hasSub (str "verified") low || hasSub (str "true") low ||
     hasSub (str "accurate") low || hasSub (str "correct") low ||
     hasSub (str "factual") low || hasSub (str "legitimate") low then
    str "✅ VERIFIED TRUE"
  else if hasSub (str "unverified") low || hasSub (str "false") low ||
     hasSub (str "fake") low || hasSub (str "misinformation") low ||
     hasSub (str "scam") low || hasSub (str "misleading") low ||
     hasSub (str "inaccurate") low then
    str "❌ VERIFIED FAKE"
  else str "⚠️ VERIFICATION UNCLEAR"

/-- Try to match `/(https?:\/\/[^\s]+)/` at the head of `l`. -/
def urlAt (l : List Char) : Option (List Char) :=
  if isPrefixL (str "https://") l then
    let r := (l.drop 8).takeWhile (fun c => !(isJsWs c))
    if r.isEmpty then none else some (str "https://" ++ r)
  else if isPrefixL (str "http://") l then
    let r := (l.drop 7).takeWhile (fun c => !(isJsWs c))
    if r.isEmpty then none else some (str "http://" ++ r)
  else none

/-- `extractURL`: `message.match(/(https?:\/\/[^\s]+)/g)` and take `match[0]`,
i.e. the first (left-most) URL only. -/
def extractURL : List Char → Option (List Char)
  | [] => none
  | c :: cs =>
    match urlAt (c :: cs) with
    | some u => some u
    | none => extractURL cs

/-!
## Fixed user-facing notices

(`apo` builds the ASCII apostrophe that several notices contain.)
-/

def apo : Char := Char.ofNat 39

def noAnswer : List Char := str "I couldn" ++ [apo] ++ str "t find an answer."

def apology : List Char :=
  str "Sorry, I" ++ [apo] ++ str "m having trouble processing your request right now."

def transcribeFailMsg : List Char :=
  str "Sorry, I couldn" ++ [apo] ++
  str "t transcribe the audio. Please try again or send a text message."

def ocrFailMsg : List Char :=
  str "Sorry, I couldn" ++ [apo] ++
  str "t extract any text from the image. Please try again with a clearer image or send a text message."

def urlFailMsg : List Char :=
  str "Sorry, I couldn" ++ [apo] ++
  str "t process the content from that URL. Please try sending the text directly or try again later."

def audioNotConfiguredMsg : List Char :=
  str "Audio processing is not configured yet. Please send a text message instead. To enable audio, configure your Twilio Auth Token in the .env file."

def imageNotConfiguredMsg : List Char :=
  str "Image processing is not configured yet. Please send a text message instead. To enable image processing, configure your Twilio Auth Token in the .env file."

def audioTroubleMsg : List Char :=
  str "Sorry, I had trouble processing the audio. Please try sending a text message instead."

def imageTroubleMsgV2 : List Char :=
  str "Sorry, I had trouble processing the image. Please try sending a text message instead."

def imageTroubleMsgV1 : List Char :=
  str "Sorry, I had trouble analyzing the image. Please try again or send a text message."

def emptyNoticeMsgV2 : List Char := str "Please send me a message or audio to process!"

def emptyNoticeMsgV1 : List Char := str "Please send me a message, audio, or image to process!"

def errorGeneratingMsg : List Char := str "Error generating response"

def restTruncNotice : List Char := str "...\n\n📋 Message truncated"

/-!
## The length bounder of the v2 handler (text/image send path)
-/

/-- The `for` loop of the truncation branch: greedily keep whole lines shorter
than 150 units while the accumulated content is below 1200 units; longer lines
are cut to 120 units plus `"..."`.  (`if (lines[i])` skips falsy lines.) -/
def buildContent : List (List Char) → List Char → List Char
  | [], acc => acc
  | ln :: rest, acc =>
    if jsLen acc < 1200 then
      if ln.isEmpty then buildContent rest acc
      else if jsLen ln < 150 then buildContent rest (acc ++ ln ++ ['\n'])
      else buildContent rest (acc ++ jsTake 120 ln ++ str "...\n")
    else acc

/-- The re-derived shortened message: leading non-blank line, greedy content,
fixed closing notice.  When every line is blank, `lines[0]` is `undefined` and
the JS template interpolates the string `"undefined"`. -/
def optimizeResponse (s : List Char) : List Char :=
  let lines := (jsSplitNl s).filter (fun ln => !(jsTrim ln).isEmpty)
  let verificationLine := lines.headD (str "undefined")
  let content := buildContent (lines.drop 1) []
  verificationLine ++ str "\n\n" ++ jsTrim content ++
    str "\n\n📋 Full analysis available on request"

/-- The last-resort hard cut of the truncation branch. -/
def hardCut (s : List Char) : List Char := jsTake 1450 s ++ str "...\n\n📋 Truncated"

/-- The `> 1500` length enforcement applied after `sanitizeForXML` on the
text/image send path of the v2 handler. -/
def boundResponse (s : List Char) : List Char :=
  if 1500 < jsLen s then
    let opt := optimizeResponse s
    if 1500 < jsLen opt then hardCut opt else opt
  else s

/-!
## Provider adapters
-/

/-- Outcome of an awaited provider call that distinguishes a thrown promise
rejection (`exn`), a returned `error` field (`err`), and a payload. -/
inductive TResult where
  | exn : TResult
  | err : TResult
  | ok : List Char → TResult

/-- `transcribeAudio`: returns the transcript (`… || ""` maps a missing
transcript to the empty string); returns `""` — it never throws — when the
Deepgram client is missing, the result carries an `error`, or the await
throws. -/
def transcribeAudio (deepgramInit : Bool) (r : TResult) : List Char :=
  if !deepgramInit then []
  else
    match r with
    | .exn => []
    | .err => []
    | .ok t => t

/-- `extractTextFromImage` (v2 handler): OCR text trimmed; `""` when the OCR
worker throws. -/
def extractTextFromImage (r : Except Unit (List Char)) : List Char :=
  match r with
  | .error _ => []
  | .ok t => jsTrim t

/-- `scamMinderTool` (`src/scamMinderTool.js`): human-readable score string,
`"Unknown"` for a falsy score field, and a fixed placeholder when the HTTP
call throws — the function never raises. -/
def scamMinderTool (url : List Char) (r : Except Unit (Option (List Char))) : List Char :=
  match r with
  | .error _ => str "Could not check scam status."
  | .ok score =>
    str "Scam Score for " ++ url ++ str ": " ++
      (match score with
       | some s => if s.isEmpty then str "Unknown" else s
       | none => str "Unknown")

/-!
## The webhook request and the two handler models

`Req` is the parsed form body; `Env1`/`Env2` collect the configuration flags
and the outcomes of the external provider calls a single request can make;
`Out1`/`Out2` record what the handler delivers and which calls it made.
-/

structure Req where
  body : Option (List Char)
  mediaContentType : Option (List Char)
  fromNum : List Char
  toNum : List Char

/-- Environment of the v2 handler. -/
structure Env2 where
  authTokenSet : Bool
  authTokenPlaceholder : Bool
  accountSidSet : Bool
  fetchOk : Bool
  deepgramInit : Bool
  transcribe : TResult
  ocr : Except Unit (List Char)
  apiTranscript : Option (List Char)
  sonar : Except Unit (Option (List Char))
  tts : Option (List Char)
  fileExists : Bool
  publicUrl : Option (List Char)
  rest : Except Unit (List Char)

/-- Result of the v2 handler.  `syncMessage = some t` is a TwiML reply whose
message body is `t`; `none` is the empty `<Response></Response>`
acknowledgment.  `restDelivered` is the body handed to the REST
`messages.create` call when that promise resolved. -/
structure Out2 where
  syncMessage : Option (List Char)
  media : Option (List Char)
  restAttempted : Bool
  restDelivered : Option (List Char)
  sonarCalled : Bool
  apiCalled : Bool
  downloadCalled : Bool
  ttsCalled : Bool

def baseOut2 : Out2 :=
  { syncMessage := none, media := none, restAttempted := false, restDelivered := none,
    sonarCalled := false, apiCalled := false, downloadCalled := false, ttsCalled := false }

/-- `downloadMedia` succeeds iff both Twilio credentials are present (it
throws otherwise) and the authenticated fetch succeeds.  The placeholder
auth-token value is truthy and passes this check. -/
def downloadOkV2 (e : Env2) : Bool := e.accountSidSet && e.authTokenSet && e.fetchOk

/-- The REST fallback block at the end of the v2 handler: runs only when the
*incoming* body contains a URL and both credentials are truthy; bounds the
REST body at 1450 units; on a resolved send with a truthy `sid` the
synchronous reply is replaced by the empty acknowledgment. -/
def applyFallback (req : Req) (e : Env2) (o : Out2) (finalResponse : List Char) : Out2 :=
  if (extractURL (req.body.getD [])).isSome && e.accountSidSet && e.authTokenSet then
    let restBody :=
      if 1500 < jsLen finalResponse then jsTake 1450 finalResponse ++ restTruncNotice
      else finalResponse
    match e.rest with
    | .error _ => { o with restAttempted := true }
    | .ok sid =>
      if !sid.isEmpty then
        -- the empty `<Response></Response>` acknowledgment carries neither the
        -- message text nor the media reference the handler had prepared
        { o with
          restAttempted := true, restDelivered := some restBody,
          syncMessage := none, media := none }
      else { o with restAttempted := true, restDelivered := some restBody }
  else o

/-- `📝 *Your message:* "<sanitized>"` prefix of the audio-input reply. -/
def audioTemplate (m : List Char) : List Char :=
  str "📝 *Your message:* \"" ++ sanitizeForXML m ++ str "\"\n\n"

def audioUrlV2 (e : Env2) (f : List Char) : List Char :=
  (e.publicUrl.getD (str "https://fact-check-bot-1.onrender.com")) ++ str "/audio/" ++ f

/-- Continuation of the v2 handler from the reasoning-provider call on. -/
def mainV2 (req : Req) (e : Env2) (isAudio isImage dl apiCalled : Bool) (m : List Char) : Out2 :=
  match e.sonar with
  | .error _ =>
    applyFallback req e
      { baseOut2 with
        downloadCalled := dl, apiCalled := apiCalled, sonarCalled := true,
        syncMessage := some apology } errorGeneratingMsg
  | .ok content =>
    let reply :=
      match content with
      | some c => if c.isEmpty then noAnswer else c
      | none => noAnswer
    let finalResponse :=
      if isAudio then audioTemplate m ++ reply
      else if isImage then getVerificationStatus reply ++ str "\n\n\n" ++ reply
      else reply
    if isAudio then
      let o1 : Out2 :=
        { baseOut2 with
          downloadCalled := dl, apiCalled := apiCalled, sonarCalled := true,
          ttsCalled := true }
      match e.tts with
      | some f =>
        if e.fileExists then
          applyFallback req e
            { o1 with
              syncMessage := some (sanitizeForXML finalResponse),
              media := some (audioUrlV2 e f) } finalResponse
        else
          applyFallback req e
            { o1 with syncMessage := some (sanitizeForXML finalResponse) } finalResponse
      | none =>
        applyFallback req e
          { o1 with syncMessage := some (sanitizeForXML finalResponse) } finalResponse
    else
      let fr := boundResponse (sanitizeForXML finalResponse)
      applyFallback req e
        { baseOut2 with
          downloadCalled := dl, apiCalled := apiCalled, sonarCalled := true,
          syncMessage := some fr } fr

/-- The v2 handler from the empty-message check on: URL content extraction
(which aborts the request when the fact-check API returns no transcript) and
the main pipeline continuation. -/
def stage2V2 (req : Req) (e : Env2) (isAudio isImage dl : Bool) (m0 : List Char) : Out2 :=
  if m0.isEmpty then
    applyFallback req e
      { baseOut2 with
        downloadCalled := dl, syncMessage := some emptyNoticeMsgV2 }
      errorGeneratingMsg
  else
    match extractURL m0 with
    | some _ =>
      match e.apiTranscript with
      | some tr =>
        if tr.isEmpty then
          { baseOut2 with
            downloadCalled := dl, apiCalled := true,
            syncMessage := some urlFailMsg }
        else mainV2 req e isAudio isImage dl true tr
      | none =>
        { baseOut2 with
          downloadCalled := dl, apiCalled := true,
          syncMessage := some urlFailMsg }
    | none => mainV2 req e isAudio isImage dl false m0

/-- The v2 `/whatsapp` handler. -/
def handleV2 (req : Req) (e : Env2) : Out2 :=
  let userMessage := jsTrim (req.body.getD [])
  let mt := req.mediaContentType.getD []
  let isAudio := isPrefixL (str "audio") mt
  let isImage := isPrefixL (str "image") mt
  if isAudio && (!e.authTokenSet || e.authTokenPlaceholder) then
    { baseOut2 with syncMessage := some audioNotConfiguredMsg }
  else if isAudio && !(downloadOkV2 e) then
    { baseOut2 with downloadCalled := true, syncMessage := some audioTroubleMsg }
  else if isAudio && (transcribeAudio e.deepgramInit e.transcribe).isEmpty then
    { baseOut2 with downloadCalled := true, syncMessage := some transcribeFailMsg }
  else if isImage && (!e.authTokenSet || e.authTokenPlaceholder) then
    { baseOut2 with syncMessage := some imageNotConfiguredMsg }
  else if isImage && !(downloadOkV2 e) then
    { baseOut2 with downloadCalled := true, syncMessage := some imageTroubleMsgV2 }
  else if isImage && (extractTextFromImage e.ocr).isEmpty then
    { baseOut2 with downloadCalled := true, syncMessage := some ocrFailMsg }
  else
    stage2V2 req e isAudio isImage (isAudio || isImage)
      (if isAudio then transcribeAudio e.deepgramInit e.transcribe
       else if isImage then extractTextFromImage e.ocr
       else userMessage)

/-- Environment of the `src/index.js` handler. -/
structure Env1 where
  authTokenSet : Bool
  authTokenPlaceholder : Bool
  accountSidSet : Bool
  fetchOk : Bool
  deepgramInit : Bool
  transcribe : TResult
  imageAnalysis : List Char
  scam : Except Unit (Option (List Char))
  sonar : Except Unit (Option (List Char))
  ttsIsElevenLabs : Bool
  elevenKeySet : Bool
  elevenTts : Option (List Char)
  dgTts : Option (List Char)
  fileExists : Bool
  ngrokUrl : Option (List Char)
  port : List Char

/-- Result of the `src/index.js` handler (a single TwiML reply, no REST path). -/
structure Out1 where
  message : List Char
  media : Option (List Char)
  sonarCalled : Bool
  sonarUserContent : List Char
  scamCalls : List (List Char)
  downloadCalled : Bool
  ttsAttempted : Bool

def baseOut1 : Out1 :=
  { message := [], media := none, sonarCalled := false, sonarUserContent := [],
    scamCalls := [], downloadCalled := false, ttsAttempted := false }

def downloadOkV1 (e : Env1) : Bool := e.accountSidSet && e.authTokenSet && e.fetchOk

/-- Strip a single trailing slash, as `baseUrl.replace(/\/$/, '')` does. -/
def dropTrailSlash (b : List Char) : List Char :=
  if b.getLastD 'x' = '/' then b.dropLast else b

def audioUrlV1 (e : Env1) (f : List Char) : List Char :=
  match e.ngrokUrl with
  | some b => dropTrailSlash b ++ str "/audio/" ++ f
  | none => str "http://localhost:" ++ e.port ++ str "/audio/" ++ f

/-- The enrichment lookups made for a normalized message: the risk-score tool
is invoked for the first URL of the message, if any. -/
def scamCallsOf (m : List Char) : List (List Char) :=
  match extractURL m with
  | some u => [u]
  | none => []

/-- The enrichment side-channel text (`toolData` in the source): the
`scamMinderTool` result for the first URL, or `""` when no URL was found. -/
def toolDataOf (e : Env1) (m : List Char) : List Char :=
  match extractURL m with
  | some u => scamMinderTool u e.scam
  | none => []

/-- The user-role content sent to the reasoning provider by `src/index.js`. -/
def queryOf (e : Env1) (m : List Char) : List Char :=
  str "User Query: " ++ m ++ str "\n\nExternal Scam Data: " ++
    (if (toolDataOf e m).isEmpty then str "No additional data" else toolDataOf e m)

/-- Continuation of the `src/index.js` handler from enrichment on. -/
def mainV1 (e : Env1) (isAudio dl : Bool) (m : List Char) : Out1 :=
  let scamCalls := scamCallsOf m
  let query := queryOf e m
  match e.sonar with
  | .error _ =>
    { baseOut1 with
      downloadCalled := dl, scamCalls := scamCalls, sonarCalled := true,
      sonarUserContent := query, message := apology }
  | .ok content =>
    let reply :=
      match content with
      | some c => if c.isEmpty then noAnswer else c
      | none => noAnswer
    let formattedReply := formatResponse reply
    let audioFile : Option (List Char) :=
      if isAudio then
        if e.ttsIsElevenLabs && e.elevenKeySet then
          match e.elevenTts with
          | some f => some f
          | none => if e.deepgramInit then e.dgTts else none
        else if e.deepgramInit then e.dgTts else none
      else none
    let o1 : Out1 :=
      { baseOut1 with
        downloadCalled := dl, scamCalls := scamCalls, sonarCalled := true,
        sonarUserContent := query, ttsAttempted := isAudio }
    match audioFile with
    | some f =>
      if isAudio then
        if e.fileExists then { o1 with message := formattedReply, media := some (audioUrlV1 e f) }
        else { o1 with message := formattedReply }
      else { o1 with message := formattedReply }
    | none => { o1 with message := formattedReply }

/-- The `src/index.js` handler from the empty-message check on. -/
def stage2V1 (e : Env1) (isAudio dl : Bool) (m0 : List Char) : Out1 :=
  if m0.isEmpty then { baseOut1 with downloadCalled := dl, message := emptyNoticeMsgV1 }
  else mainV1 e isAudio dl m0

/-- The `src/index.js` `/whatsapp` handler. -/
def handleV1 (req : Req) (e : Env1) : Out1 :=
  let userMessage := jsTrim (req.body.getD [])
  let mt := req.mediaContentType.getD []
  let isAudio := isPrefixL (str "audio") mt
  let isImage := isPrefixL (str "image") mt
  if isAudio && (!e.authTokenSet || e.authTokenPlaceholder) then
    { baseOut1 with message := audioNotConfiguredMsg }
  else if isAudio && !(downloadOkV1 e) then
    { baseOut1 with downloadCalled := true, message := audioTroubleMsg }
  else if isAudio && (transcribeAudio e.deepgramInit e.transcribe).isEmpty then
    { baseOut1 with downloadCalled := true, message := transcribeFailMsg }
  else if isImage && !(downloadOkV1 e) then
    { baseOut1 with downloadCalled := true, message := imageTroubleMsgV1 }
  else
    stage2V1 e isAudio (isAudio || isImage)
      (if isAudio then transcribeAudio e.deepgramInit e.transcribe
       else if isImage then
         (if userMessage.isEmpty then e.imageAnalysis
          else userMessage ++ str "\n\n" ++ e.imageAnalysis)
       else userMessage)


/-!
## Basic lemmas about the string toolkit
-/

theorem jsLen_nil : jsLen [] = 0 := rfl

theorem jsLen_append (a b : List Char) : jsLen (a ++ b) = jsLen a + jsLen b := by
  simp [jsLen]

theorem charW_pos (c : Char) : 0 < charW c := by
  unfold charW; split <;> omega

theorem jsLen_jsTake_le (n : Nat) (l : List Char) : jsLen (jsTake n l) ≤ n := by
  induction l generalizing n with
  | nil => simp [jsTake, jsLen]
  | cons c cs ih =>
    unfold jsTake
    split
    · next h =>
      have := ih (n - charW c)
      simp only [jsLen, List.map_cons, List.sum_cons] at *
      omega
    · simp [jsLen]

theorem isPrefixL_iff (p l : List Char) : isPrefixL p l = true ↔ ∃ t, p ++ t = l := by
  induction p generalizing l with
  | nil => simp [isPrefixL]
  | cons x xs ih =>
    cases l with
    | nil =>
      simp [isPrefixL]
    | cons c cs =>
      simp only [isPrefixL, Bool.and_eq_true, beq_iff_eq, ih]
      constructor
      · rintro ⟨rfl, t, rfl⟩
        exact ⟨t, rfl⟩
      · rintro ⟨t, ht⟩
        injection ht with h1 h2
        exact ⟨h1, t, h2⟩

theorem isPrefixL_append (p b : List Char) : isPrefixL p (p ++ b) = true :=
  (isPrefixL_iff p (p ++ b)).2 ⟨b, rfl⟩

theorem splitFirst_eq_some {p l a b : List Char}
    (h : splitFirst p l = some (a, b)) : a ++ p ++ b = l := by
  induction l generalizing a b with
  | nil =>
    unfold splitFirst at h
    split at h
    · next hp =>
      obtain ⟨t, ht⟩ := (isPrefixL_iff p []).1 hp
      have hp0 : p = [] := by
        cases p with
        | nil => rfl
        | cons x xs => simp at ht
      injection h with h'
      injection h' with h1 h2
      subst h1; subst h2
      simp [hp0]
    · exact absurd h (by simp)
  | cons c cs ih =>
    unfold splitFirst at h
    split at h
    · next hp =>
      obtain ⟨t, ht⟩ := (isPrefixL_iff p (c :: cs)).1 hp
      injection h with h'
      injection h' with h1 h2
      subst h1; subst h2
      conv_rhs => rw [← ht]
      simp [← ht]
    · next hp =>
      cases hs : splitFirst p cs with
      | none => rw [hs] at h; exact absurd h (by simp)
      | some ab =>
        obtain ⟨a', b'⟩ := ab
        rw [hs] at h
        injection h with h'
        injection h' with h1 h2
        subst h1; subst h2
        have := ih hs
        simp [← this]

theorem splitFirst_single_some {ch : Char} {l a b : List Char}
    (h : splitFirst [ch] l = some (a, b)) : ch ∉ a := by
  induction l generalizing a b with
  | nil =>
    unfold splitFirst at h
    split at h
    · next hp => simp [isPrefixL] at hp
    · exact absurd h (by simp)
  | cons c cs ih =>
    unfold splitFirst at h
    split at h
    · next hp =>
      injection h with h'
      injection h' with h1 h2
      subst h1
      simp
    · next hp =>
      cases hs : splitFirst [ch] cs with
      | none => rw [hs] at h; exact absurd h (by simp)
      | some ab =>
        obtain ⟨a', b'⟩ := ab
        rw [hs] at h
        injection h with h'
        injection h' with h1 h2
        subst h1; subst h2
        have hcn : ¬(ch == c && isPrefixL [] cs) = true := by
          simpa [isPrefixL] using hp
        simp only [isPrefixL, Bool.and_true] at hcn
        intro hmem
        rcases List.mem_cons.1 hmem with h1 | h2
        · subst h1; simp at hcn
        · exact ih hs h2

theorem splitFirst_single_none {ch : Char} {l : List Char}
    (h : splitFirst [ch] l = none) : ch ∉ l := by
  induction l with
  | nil => simp
  | cons c cs ih =>
    unfold splitFirst at h
    split at h
    · exact absurd h (by simp)
    · next hp =>
      cases hs : splitFirst [ch] cs with
      | some ab => rw [hs] at h; exact absurd h (by simp)
      | none =>
        have hcn : ¬(ch == c && isPrefixL [] cs) = true := by
          simpa [isPrefixL] using hp
        simp only [isPrefixL, Bool.and_true] at hcn
        intro hmem
        rcases List.mem_cons.1 hmem with h1 | h2
        · subst h1; simp at hcn
        · exact ih hs h2

theorem splitFirst_isSome_append (p : List Char) :
    ∀ a b : List Char, (splitFirst p (a ++ (p ++ b))).isSome = true := by
  intro a
  induction a with
  | nil =>
    intro b
    cases hpb : p ++ b with
    | nil =>
      have hp : isPrefixL p [] = true := by
        have : p = [] := by
          cases p with
          | nil => rfl
          | cons x xs => simp at hpb
        simp [this, isPrefixL]
      simp [splitFirst, hp, hpb]
    | cons c cs =>
      have hp : isPrefixL p (c :: cs) = true := by
        rw [← hpb]; exact isPrefixL_append p b
      simp [splitFirst, hp, hpb]
  | cons x xs ih =>
    intro b
    simp only [List.cons_append]
    unfold splitFirst
    split
    · simp
    · have := ih b
      cases hs : splitFirst p (xs ++ (p ++ b)) with
      | none => rw [hs] at this; simp at this
      | some ab => simp [hs]

theorem hasSub_append (pre p suf : List Char) : hasSub p (pre ++ (p ++ suf)) = true := by
  simp [hasSub, splitFirst_isSome_append]

/-!
## Claim theorems
-/

/-- C10: `getVerificationStatus` is a total function whose result is always
exactly one of the three fixed markers, and the positive-keyword check comes
first: an answer containing a positive keyword such as "true" is classified
`✅ VERIFIED TRUE` even when a negative keyword such as "scam" is also
present. -/
theorem c10_verification_status_total_positive_first (r : List Char) :
    (getVerificationStatus r = str "✅ VERIFIED TRUE" ∨
     getVerificationStatus r = str "❌ VERIFIED FAKE" ∨
     getVerificationStatus r = str "⚠️ VERIFICATION UNCLEAR") ∧
    (hasSub (str "true") (r.map Char.toLower) = true →
     hasSub (str "scam") (r.map Char.toLower) = true →
     getVerificationStatus r = str "✅ VERIFIED TRUE") := by
  constructor
  · simp only [getVerificationStatus]
    split
    · exact Or.inl rfl
    · split
      · exact Or.inr (Or.inl rfl)
      · exact Or.inr (Or.inr rfl)
  · intro h1 _
    simp only [getVerificationStatus]
    simp [h1]

/-- Witness for C10 at a concrete answer containing both keyword kinds. -/
theorem c10_witness :
    hasSub (str "true") ((str "It is true but a scam").map Char.toLower) = true ∧
    hasSub (str "scam") ((str "It is true but a scam").map Char.toLower) = true ∧
    getVerificationStatus (str "It is true but a scam") = str "✅ VERIFIED TRUE" :=
  ⟨by decide, by decide,
   (c10_verification_status_total_positive_first (str "It is true but a scam")).2
     (by decide) (by decide)⟩

/-- C9: with no body text and no attachment, each handler replies with its
fixed "please send me a message" notice and makes no provider call of any
kind (no media download, no enrichment, no reasoning call, no synthesis, no
REST fallback). -/
theorem c9_empty_input_fixed_notice (req : Req) (e1 : Env1) (e2 : Env2)
    (hb : req.body.getD [] = []) (hm : req.mediaContentType.getD [] = []) :
    (handleV1 req e1).message = emptyNoticeMsgV1 ∧
    (handleV1 req e1).sonarCalled = false ∧
    (handleV1 req e1).scamCalls = [] ∧
    (handleV1 req e1).downloadCalled = false ∧
    (handleV1 req e1).ttsAttempted = false ∧
    (handleV2 req e2).syncMessage = some emptyNoticeMsgV2 ∧
    (handleV2 req e2).sonarCalled = false ∧
    (handleV2 req e2).apiCalled = false ∧
    (handleV2 req e2).downloadCalled = false ∧
    (handleV2 req e2).ttsCalled = false ∧
    (handleV2 req e2).restAttempted = false := by
  have ha : isPrefixL (str "audio") [] = false := by decide
  have hi : isPrefixL (str "image") [] = false := by decide
  refine ⟨?_, ?_, ?_, ?_, ?_, ?_, ?_, ?_, ?_, ?_, ?_⟩ <;>
    simp [handleV1, handleV2, stage2V1, stage2V2, hb, hm, ha, hi, jsTrim, applyFallback,
      extractURL, baseOut1, baseOut2]

/-- Witness request/environments for the claims below: a request with no body
and no attachment, and fully-configured environments. -/
def wReqEmpty : Req := { body := none, mediaContentType := none, fromNum := [], toNum := [] }

def wEnv1 : Env1 :=
  { authTokenSet := true
    authTokenPlaceholder := false
    accountSidSet := true
    fetchOk := true
    deepgramInit := true
    transcribe := TResult.ok (str "hello")
    imageAnalysis := str "analysis"
    scam := Except.ok (some (str "42"))
    sonar := Except.ok (some (str "This is true."))
    ttsIsElevenLabs := false
    elevenKeySet := false
    elevenTts := none
    dgTts := some (str "output_2.mp3")
    fileExists := true
    ngrokUrl := none
    port := str "3000" }

def wEnv2 : Env2 :=
  { authTokenSet := true
    authTokenPlaceholder := false
    accountSidSet := true
    fetchOk := true
    deepgramInit := true
    transcribe := TResult.ok (str "hello")
    ocr := Except.ok (str "ocr text")
    apiTranscript := some (str "api transcript")
    sonar := Except.ok (some (str "This is true."))
    tts := some (str "output_1.mp3")
    fileExists := true
    publicUrl := none
    rest := Except.ok (str "SM123") }

/-- Witness for C9 at the concrete empty request. -/
theorem c9_witness :
    wReqEmpty.body.getD [] = [] ∧ wReqEmpty.mediaContentType.getD [] = [] ∧
    (handleV1 wReqEmpty wEnv1).message = emptyNoticeMsgV1 ∧
    (handleV2 wReqEmpty wEnv2).syncMessage = some emptyNoticeMsgV2 :=
  ⟨by decide, by decide,
   (c9_empty_input_fixed_notice wReqEmpty wEnv1 wEnv2 (by decide) (by decide)).1,
   (c9_empty_input_fixed_notice wReqEmpty wEnv1 wEnv2 (by decide) (by decide)).2.2.2.2.2.1⟩

/-- C6: for an audio-attachment input whose transcription yields the empty
string, the speech-to-text adapter returns the empty string (it never raises:
provider `error` results and thrown awaits both map to `""`), the reply is the
fixed retry-prompting notice, and the reasoning provider is not called — in
both handlers. -/
theorem c6_empty_transcript_short_circuit (req : Req) (e1 : Env1) (e2 : Env2)
    (hm : isPrefixL (str "audio") (req.mediaContentType.getD []) = true)
    (hcfg1 : e1.authTokenSet = true) (hph1 : e1.authTokenPlaceholder = false)
    (hdl1 : downloadOkV1 e1 = true)
    (ht1 : transcribeAudio e1.deepgramInit e1.transcribe = [])
    (hcfg2 : e2.authTokenSet = true) (hph2 : e2.authTokenPlaceholder = false)
    (hdl2 : downloadOkV2 e2 = true)
    (ht2 : transcribeAudio e2.deepgramInit e2.transcribe = []) :
    (∀ b : Bool, transcribeAudio b TResult.err = [] ∧ transcribeAudio b TResult.exn = []) ∧
    (handleV1 req e1).message = transcribeFailMsg ∧
    (handleV1 req e1).sonarCalled = false ∧
    (handleV2 req e2).syncMessage = some transcribeFailMsg ∧
    (handleV2 req e2).sonarCalled = false := by
  refine ⟨fun b => by cases b <;> simp [transcribeAudio], ?_, ?_, ?_, ?_⟩ <;>
    simp [handleV1, handleV2, hm, hcfg1, hph1, hdl1, ht1, hcfg2, hph2, hdl2, ht2,
      baseOut1, baseOut2]

/-- Witness request/environment for C6: an audio request whose transcription
provider reports an error. -/
def wReqAudio : Req :=
  { body := none, mediaContentType := some (str "audio/ogg"), fromNum := [], toNum := [] }

def wEnv1Err : Env1 := { wEnv1 with transcribe := TResult.err }

def wEnv2Err : Env2 := { wEnv2 with transcribe := TResult.err }

/-- Witness for C6 at the concrete audio request with a failing transcription
provider. -/
theorem c6_witness :
    isPrefixL (str "audio") (wReqAudio.mediaContentType.getD []) = true ∧
    transcribeAudio wEnv2Err.deepgramInit wEnv2Err.transcribe = [] ∧
    (handleV1 wReqAudio wEnv1Err).message = transcribeFailMsg ∧
    (handleV2 wReqAudio wEnv2Err).syncMessage = some transcribeFailMsg :=
  ⟨by decide, by decide,
   (c6_empty_transcript_short_circuit wReqAudio wEnv1Err wEnv2Err (by decide) (by decide)
     (by decide) (by decide) (by decide) (by decide) (by decide) (by decide)
     (by decide)).2.1,
   (c6_empty_transcript_short_circuit wReqAudio wEnv1Err wEnv2Err (by decide) (by decide)
     (by decide) (by decide) (by decide) (by decide) (by decide) (by decide)
     (by decide)).2.2.2.1⟩

/-!
## Helper lemmas about the delivery stages
-/

theorem applyFallback_ttsCalled (req : Req) (e : Env2) (o : Out2) (fr : List Char) :
    (applyFallback req e o fr).ttsCalled = o.ttsCalled := by
  unfold applyFallback
  cases he : e.rest <;> repeat' split
  all_goals simp [he]

theorem applyFallback_media_none (req : Req) (e : Env2) (o : Out2) (fr : List Char)
    (h : o.media = none) : (applyFallback req e o fr).media = none := by
  unfold applyFallback
  cases he : e.rest <;> repeat' split
  all_goals simp [he, h]

theorem applyFallback_media_sync (req : Req) (e : Env2) (o : Out2) (fr : List Char)
    (h : o.syncMessage.isSome = true)
    (hm : (applyFallback req e o fr).media.isSome = true) :
    (applyFallback req e o fr).syncMessage.isSome = true := by
  unfold applyFallback at hm ⊢
  cases he : e.rest <;> repeat' split
  all_goals simp_all

theorem mainV2_ttsCalled (req : Req) (e : Env2) (a i dl api : Bool) (m : List Char)
    (h : (mainV2 req e a i dl api m).ttsCalled = true) : a = true := by
  unfold mainV2 at h
  cases hs : e.sonar with
  | error u =>
    simp only [hs] at h
    rw [applyFallback_ttsCalled] at h
    simp [baseOut2] at h
  | ok c =>
    simp only [hs] at h
    cases a with
    | true => rfl
    | false =>
      simp only [Bool.false_eq_true, if_false] at h
      rw [applyFallback_ttsCalled] at h
      simp [baseOut2] at h

theorem mainV2_media_none (req : Req) (e : Env2) (i dl api : Bool) (m : List Char) :
    (mainV2 req e false i dl api m).media = none := by
  unfold mainV2
  cases hs : e.sonar with
  | error u =>
    simp only [hs]
    exact applyFallback_media_none _ _ _ _ rfl
  | ok c =>
    simp only [hs, Bool.false_eq_true, if_false]
    exact applyFallback_media_none _ _ _ _ rfl

theorem mainV2_media_sync (req : Req) (e : Env2) (a i dl api : Bool) (m : List Char)
    (h : (mainV2 req e a i dl api m).media.isSome = true) :
    (mainV2 req e a i dl api m).syncMessage.isSome = true := by
  unfold mainV2 at h ⊢
  cases hs : e.sonar with
  | error u =>
    simp only [hs] at h ⊢
    exact applyFallback_media_sync _ _ _ _ rfl h
  | ok c =>
    simp only [hs] at h ⊢
    cases a with
    | false =>
      simp only [Bool.false_eq_true, if_false] at h ⊢
      exact applyFallback_media_sync _ _ _ _ rfl h
    | true =>
      simp only [if_pos rfl] at h ⊢
      cases ht : e.tts with
      | none =>
        simp only [ht] at h ⊢
        exact applyFallback_media_sync _ _ _ _ rfl h
      | some f =>
        simp only [ht] at h ⊢
        cases hfe : e.fileExists with
        | true =>
          simp only [hfe, if_pos rfl] at h ⊢
          exact applyFallback_media_sync _ _ _ _ rfl h
        | false =>
          simp only [hfe, Bool.false_eq_true, if_false] at h ⊢
          exact applyFallback_media_sync _ _ _ _ rfl h

theorem mainV1_ttsAttempted (e : Env1) (a dl : Bool) (m : List Char)
    (h : (mainV1 e a dl m).ttsAttempted = true) : a = true := by
  unfold mainV1 at h
  cases hs : e.sonar with
  | error u => simp only [hs] at h; simp [baseOut1] at h
  | ok c =>
    simp only [hs] at h
    cases a with
    | true => rfl
    | false => simp [baseOut1] at h

theorem mainV1_media_none (e : Env1) (dl : Bool) (m : List Char) :
    (mainV1 e false dl m).media = none := by
  unfold mainV1
  cases hs : e.sonar with
  | error u => simp only [hs]; rfl
  | ok c =>
    simp only [hs]
    simp [baseOut1]

theorem mainV1_media_tts (e : Env1) (a dl : Bool) (m : List Char)
    (h : (mainV1 e a dl m).media.isSome = true) : (mainV1 e a dl m).ttsAttempted = true := by
  unfold mainV1 at h ⊢
  cases hs : e.sonar with
  | error u => simp only [hs] at h; simp [baseOut1] at h
  | ok c =>
    simp only [hs] at h ⊢
    cases a with
    | false => simp [baseOut1] at h
    | true =>
      repeat' split
      all_goals simp [baseOut1]

/-- The fixed early-return notices of the v2 handler. -/
def earlyMsgsV2 : List (List Char) :=
  [audioNotConfiguredMsg, audioTroubleMsg, transcribeFailMsg, imageNotConfiguredMsg,
   imageTroubleMsgV2, ocrFailMsg, urlFailMsg]

/-- The fixed early-return notices of the `src/index.js` handler. -/
def earlyMsgsV1 : List (List Char) :=
  [audioNotConfiguredMsg, audioTroubleMsg, transcribeFailMsg, imageTroubleMsgV1]

/-- Every run of `stage2V2` is an early URL-failure notice, the empty-input
notice followed by the REST-fallback block, or the pipeline continuation. -/
theorem stage2V2_shape (req : Req) (e : Env2) (isAudio isImage dl : Bool) (m0 : List Char) :
    (∃ msg, msg ∈ earlyMsgsV2 ∧ ∃ dlc apic, stage2V2 req e isAudio isImage dl m0 =
        { baseOut2 with syncMessage := some msg, downloadCalled := dlc, apiCalled := apic }) ∨
    (∃ dlc, stage2V2 req e isAudio isImage dl m0 =
        applyFallback req e
          { baseOut2 with downloadCalled := dlc, syncMessage := some emptyNoticeMsgV2 }
          errorGeneratingMsg) ∨
    (∃ api m, stage2V2 req e isAudio isImage dl m0 = mainV2 req e isAudio isImage dl api m) := by
  by_cases h0 : m0.isEmpty = true
  · refine Or.inr (Or.inl ⟨dl, ?_⟩)
    simp [stage2V2, h0]
  · cases hu : extractURL m0 with
    | none =>
      refine Or.inr (Or.inr ⟨false, m0, ?_⟩)
      simp [stage2V2, h0, hu]
    | some u =>
      cases ha : e.apiTranscript with
      | none =>
        refine Or.inl ⟨urlFailMsg, by simp [earlyMsgsV2], dl, true, ?_⟩
        simp [stage2V2, h0, hu, ha]
      | some tr =>
        by_cases ht : tr.isEmpty = true
        · refine Or.inl ⟨urlFailMsg, by simp [earlyMsgsV2], dl, true, ?_⟩
          simp [stage2V2, h0, hu, ha, ht]
        · refine Or.inr (Or.inr ⟨true, tr, ?_⟩)
          simp [stage2V2, h0, hu, ha, ht]

/-- Every run of the v2 handler is one of: an early return with a fixed
notice, the empty-input notice followed by the REST-fallback block, or the
main pipeline continuation `mainV2`. -/
theorem handleV2_shape (req : Req) (e : Env2) :
    (∃ msg, msg ∈ earlyMsgsV2 ∧ ∃ dlc apic, handleV2 req e =
        { baseOut2 with syncMessage := some msg, downloadCalled := dlc, apiCalled := apic }) ∨
    (∃ dlc, handleV2 req e =
        applyFallback req e
          { baseOut2 with downloadCalled := dlc, syncMessage := some emptyNoticeMsgV2 }
          errorGeneratingMsg) ∨
    (∃ api m, handleV2 req e =
        mainV2 req e (isPrefixL (str "audio") (req.mediaContentType.getD []))
          (isPrefixL (str "image") (req.mediaContentType.getD []))
          (isPrefixL (str "audio") (req.mediaContentType.getD []) ||
           isPrefixL (str "image") (req.mediaContentType.getD [])) api m) := by
  simp only [handleV2]
  by_cases h1 : (isPrefixL (str "audio") (req.mediaContentType.getD []) &&
      (!e.authTokenSet || e.authTokenPlaceholder)) = true
  · rw [if_pos h1]
    refine Or.inl ⟨_, ?_, _, _, rfl⟩
    simp [earlyMsgsV2]
  rw [if_neg h1]
  by_cases h2 : (isPrefixL (str "audio") (req.mediaContentType.getD []) &&
      !downloadOkV2 e) = true
  · rw [if_pos h2]
    refine Or.inl ⟨_, ?_, _, _, rfl⟩
    simp [earlyMsgsV2]
  rw [if_neg h2]
  by_cases h3 : (isPrefixL (str "audio") (req.mediaContentType.getD []) &&
      (transcribeAudio e.deepgramInit e.transcribe).isEmpty) = true
  · rw [if_pos h3]
    refine Or.inl ⟨_, ?_, _, _, rfl⟩
    simp [earlyMsgsV2]
  rw [if_neg h3]
  by_cases h4 : (isPrefixL (str "image") (req.mediaContentType.getD []) &&
      (!e.authTokenSet || e.authTokenPlaceholder)) = true
  · rw [if_pos h4]
    refine Or.inl ⟨_, ?_, _, _, rfl⟩
    simp [earlyMsgsV2]
  rw [if_neg h4]
  by_cases h5 : (isPrefixL (str "image") (req.mediaContentType.getD []) &&
      !downloadOkV2 e) = true
  · rw [if_pos h5]
    refine Or.inl ⟨_, ?_, _, _, rfl⟩
    simp [earlyMsgsV2]
  rw [if_neg h5]
  by_cases h6 : (isPrefixL (str "image") (req.mediaContentType.getD []) &&
      (extractTextFromImage e.ocr).isEmpty) = true
  · rw [if_pos h6]
    refine Or.inl ⟨_, ?_, _, _, rfl⟩
    simp [earlyMsgsV2]
  rw [if_neg h6]
  exact stage2V2_shape req e _ _ _ _

/-- Every run of `stage2V1` is the empty-input notice or the pipeline
continuation. -/
theorem stage2V1_shape (e : Env1) (isAudio dl : Bool) (m0 : List Char) :
    (∃ dlc, stage2V1 e isAudio dl m0 =
        { baseOut1 with message := emptyNoticeMsgV1, downloadCalled := dlc }) ∨
    (∃ m, stage2V1 e isAudio dl m0 = mainV1 e isAudio dl m) := by
  by_cases h0 : m0.isEmpty = true
  · refine Or.inl ⟨dl, ?_⟩
    simp [stage2V1, h0]
  · refine Or.inr ⟨m0, ?_⟩
    simp [stage2V1, h0]

/-- Every run of the `src/index.js` handler is an early return with a fixed
notice, the empty-input notice, or the main pipeline continuation `mainV1`. -/
theorem handleV1_shape (req : Req) (e : Env1) :
    (∃ msg, msg ∈ earlyMsgsV1 ∧ ∃ dlc, handleV1 req e =
        { baseOut1 with message := msg, downloadCalled := dlc }) ∨
    (∃ dlc, handleV1 req e =
        { baseOut1 with message := emptyNoticeMsgV1, downloadCalled := dlc }) ∨
    (∃ m, handleV1 req e =
        mainV1 e (isPrefixL (str "audio") (req.mediaContentType.getD []))
          (isPrefixL (str "audio") (req.mediaContentType.getD []) ||
           isPrefixL (str "image") (req.mediaContentType.getD [])) m) := by
  simp only [handleV1]
  by_cases h1 : (isPrefixL (str "audio") (req.mediaContentType.getD []) &&
      (!e.authTokenSet || e.authTokenPlaceholder)) = true
  · rw [if_pos h1]
    refine Or.inl ⟨_, ?_, _, rfl⟩
    simp [earlyMsgsV1]
  rw [if_neg h1]
  by_cases h2 : (isPrefixL (str "audio") (req.mediaContentType.getD []) &&
      !downloadOkV1 e) = true
  · rw [if_pos h2]
    refine Or.inl ⟨_, ?_, _, rfl⟩
    simp [earlyMsgsV1]
  rw [if_neg h2]
  by_cases h3 : (isPrefixL (str "audio") (req.mediaContentType.getD []) &&
      (transcribeAudio e.deepgramInit e.transcribe).isEmpty) = true
  · rw [if_pos h3]
    refine Or.inl ⟨_, ?_, _, rfl⟩
    simp [earlyMsgsV1]
  rw [if_neg h3]
  by_cases h4 : (isPrefixL (str "image") (req.mediaContentType.getD []) &&
      !downloadOkV1 e) = true
  · rw [if_pos h4]
    refine Or.inl ⟨_, ?_, _, rfl⟩
    simp [earlyMsgsV1]
  rw [if_neg h4]
  rcases stage2V1_shape e (isPrefixL (str "audio") (req.mediaContentType.getD []))
      (isPrefixL (str "audio") (req.mediaContentType.getD []) ||
       isPrefixL (str "image") (req.mediaContentType.getD [])) _ with h | h
  · exact Or.inr (Or.inl h)
  · exact Or.inr (Or.inr h)

theorem mainV1_sonarCalled (e : Env1) (a dl : Bool) (m : List Char) :
    (mainV1 e a dl m).sonarCalled = true := by
  unfold mainV1
  cases hs : e.sonar with
  | error u => simp only [hs]
  | ok c =>
    simp only [hs]
    repeat' split
    all_goals rfl

theorem mainV1_scamCalls (e : Env1) (a dl : Bool) (m : List Char) :
    (mainV1 e a dl m).scamCalls = scamCallsOf m := by
  unfold mainV1
  cases hs : e.sonar with
  | error u => simp only [hs]
  | ok c =>
    simp only [hs]
    repeat' split
    all_goals rfl

theorem mainV1_query (e : Env1) (a dl : Bool) (m : List Char) :
    (mainV1 e a dl m).sonarUserContent = queryOf e m := by
  unfold mainV1
  cases hs : e.sonar with
  | error u => simp only [hs]
  | ok c =>
    simp only [hs]
    repeat' split
    all_goals rfl

/-- Reduction of the `src/index.js` handler for a plain text request. -/
theorem handleV1_text (req : Req) (e1 : Env1)
    (hm : req.mediaContentType.getD [] = [])
    (hne : (jsTrim (req.body.getD [])).isEmpty = false) :
    handleV1 req e1 = mainV1 e1 false false (jsTrim (req.body.getD [])) := by
  have ha : isPrefixL (str "audio") [] = false := by decide
  have hi : isPrefixL (str "image") [] = false := by decide
  simp [handleV1, stage2V1, hm, ha, hi, hne]

theorem scamMinderTool_isEmpty (u : List Char) (r : Except Unit (Option (List Char))) :
    (scamMinderTool u r).isEmpty = false := by
  cases r with
  | error e => rfl
  | ok score => rfl

/-- C7: enrichment detects at most one URL (the first match only — `match[0]`);
when one is found the risk-scoring lookup is recorded exactly once and its
human-readable result (which is never empty and never an exception: a thrown
HTTP call degrades to the fixed placeholder string) appears in the query sent
to the reasoning provider; without a URL the "No additional data" placeholder
appears; in all cases the reasoning call is made, so enrichment failure never
aborts the request. -/
theorem c7_enrichment_single_lookup (req : Req) (e1 : Env1) (u : List Char)
    (hm : req.mediaContentType.getD [] = [])
    (hne : (jsTrim (req.body.getD [])).isEmpty = false) :
    (∀ r, scamMinderTool u r = str "Could not check scam status." ∨
       ∃ s, scamMinderTool u r = str "Scam Score for " ++ u ++ str ": " ++ s) ∧
    (handleV1 req e1).sonarCalled = true ∧
    (extractURL (jsTrim (req.body.getD [])) = some u →
       (handleV1 req e1).scamCalls = [u] ∧
       hasSub (scamMinderTool u e1.scam) (handleV1 req e1).sonarUserContent = true) ∧
    (extractURL (jsTrim (req.body.getD [])) = none →
       (handleV1 req e1).scamCalls = [] ∧
       hasSub (str "No additional data") (handleV1 req e1).sonarUserContent = true) := by
  have hred := handleV1_text req e1 hm hne
  refine ⟨?_, ?_, ?_, ?_⟩
  · intro r
    cases r with
    | error e => exact Or.inl rfl
    | ok score => exact Or.inr ⟨_, rfl⟩
  · rw [hred]; exact mainV1_sonarCalled e1 false false _
  · intro hurl
    rw [hred, mainV1_scamCalls, mainV1_query]
    constructor
    · simp [scamCallsOf, hurl]
    · have htool : toolDataOf e1 (jsTrim (req.body.getD [])) = scamMinderTool u e1.scam := by
        simp [toolDataOf, hurl]
      have hq : queryOf e1 (jsTrim (req.body.getD [])) =
          (str "User Query: " ++ jsTrim (req.body.getD []) ++
            str "\n\nExternal Scam Data: ") ++ scamMinderTool u e1.scam := by
        simp [queryOf, htool, scamMinderTool_isEmpty]
      rw [hq]
      have := hasSub_append
        (str "User Query: " ++ jsTrim (req.body.getD []) ++ str "\n\nExternal Scam Data: ")
        (scamMinderTool u e1.scam) []
      simpa using this
  · intro hurl
    rw [hred, mainV1_scamCalls, mainV1_query]
    constructor
    · simp [scamCallsOf, hurl]
    · have htool : toolDataOf e1 (jsTrim (req.body.getD [])) = [] := by
        simp [toolDataOf, hurl]
      have hq : queryOf e1 (jsTrim (req.body.getD [])) =
          (str "User Query: " ++ jsTrim (req.body.getD []) ++
            str "\n\nExternal Scam Data: ") ++ str "No additional data" := by
        simp [queryOf, htool]
      rw [hq]
      have := hasSub_append
        (str "User Query: " ++ jsTrim (req.body.getD []) ++ str "\n\nExternal Scam Data: ")
        (str "No additional data") []
      simpa using this

/-- Concrete witness request for C7: a text message containing two URLs (only
the first is looked up). -/
def wReqUrl2 : Req :=
  { body := some (str "see https://one.example/a and https://two.example/b")
    mediaContentType := none, fromNum := [], toNum := [] }

/-- Witness for C7: at a concrete two-URL message, the first URL (and only it)
is looked up once and the score string appears in the reasoning query. -/
theorem c7_witness :
    extractURL (jsTrim (wReqUrl2.body.getD [])) = some (str "https://one.example/a") ∧
    (handleV1 wReqUrl2 wEnv1).scamCalls = [str "https://one.example/a"] ∧
    hasSub (scamMinderTool (str "https://one.example/a") wEnv1.scam)
      (handleV1 wReqUrl2 wEnv1).sonarUserContent = true := by
  have h := (c7_enrichment_single_lookup wReqUrl2 wEnv1 (str "https://one.example/a")
    (by decide) (by decide)).2.2.1 (by decide)
  exact ⟨by decide, h.1, h.2⟩

theorem handleV1_tts_gating (req : Req) (e1 : Env1) :
    ((handleV1 req e1).ttsAttempted = true →
       isPrefixL (str "audio") (req.mediaContentType.getD []) = true) ∧
    (isPrefixL (str "audio") (req.mediaContentType.getD []) = false →
       (handleV1 req e1).media = none) ∧
    ((handleV1 req e1).media.isSome = true → (handleV1 req e1).ttsAttempted = true) := by
  rcases handleV1_shape req e1 with ⟨msg, -, dlc, h⟩ | ⟨dlc, h⟩ | ⟨m, h⟩ <;> rw [h]
  · exact ⟨fun hx => by simp [baseOut1] at hx, fun _ => rfl,
           fun hx => by simp [baseOut1] at hx⟩
  · exact ⟨fun hx => by simp [baseOut1] at hx, fun _ => rfl,
           fun hx => by simp [baseOut1] at hx⟩
  · exact ⟨mainV1_ttsAttempted e1 _ _ m,
           fun hna => by rw [hna]; exact mainV1_media_none e1 _ m,
           mainV1_media_tts e1 _ _ m⟩

theorem handleV2_tts_gating (req : Req) (e2 : Env2) :
    ((handleV2 req e2).ttsCalled = true →
       isPrefixL (str "audio") (req.mediaContentType.getD []) = true) ∧
    (isPrefixL (str "audio") (req.mediaContentType.getD []) = false →
       (handleV2 req e2).media = none) ∧
    ((handleV2 req e2).media.isSome = true → (handleV2 req e2).syncMessage.isSome = true) := by
  rcases handleV2_shape req e2 with ⟨msg, -, dlc, apic, h⟩ | ⟨dlc, h⟩ | ⟨api, m, h⟩ <;> rw [h]
  · exact ⟨fun hx => by simp [baseOut2] at hx, fun _ => rfl,
           fun hx => by simp [baseOut2] at hx⟩
  · refine ⟨fun hx => ?_, fun _ => ?_, fun hx => ?_⟩
    · rw [applyFallback_ttsCalled] at hx
      simp [baseOut2] at hx
    · exact applyFallback_media_none _ _ _ _ rfl
    · exact applyFallback_media_sync _ _ _ _ rfl hx
  · exact ⟨mainV2_ttsCalled req e2 _ _ _ _ m,
           fun hna => by rw [hna]; exact mainV2_media_none req e2 _ _ _ m,
           mainV2_media_sync req e2 _ _ _ _ m⟩

/-- C8: speech synthesis is attempted only when the input kind was an audio
attachment; for text and image inputs no audio reference is ever attached to
the outbound payload; and a payload carrying an audio reference always carries
the reply text too: the media reference is attached to the message that holds
the formatted answer (`textMsg.media(audioUrl)`), so in the model a present
media reference implies synthesis was attempted (v1) and a present synchronous
text message (v2); synthesis failure yields `media = none` with the text
untouched. -/
theorem c8_voice_in_voice_out (req : Req) (e1 : Env1) (e2 : Env2) :
    ((handleV1 req e1).ttsAttempted = true →
       isPrefixL (str "audio") (req.mediaContentType.getD []) = true) ∧
    (isPrefixL (str "audio") (req.mediaContentType.getD []) = false →
       (handleV1 req e1).media = none) ∧
    ((handleV1 req e1).media.isSome = true → (handleV1 req e1).ttsAttempted = true) ∧
    ((handleV2 req e2).ttsCalled = true →
       isPrefixL (str "audio") (req.mediaContentType.getD []) = true) ∧
    (isPrefixL (str "audio") (req.mediaContentType.getD []) = false →
       (handleV2 req e2).media = none) ∧
    ((handleV2 req e2).media.isSome = true → (handleV2 req e2).syncMessage.isSome = true) :=
  ⟨(handleV1_tts_gating req e1).1, (handleV1_tts_gating req e1).2.1,
   (handleV1_tts_gating req e1).2.2, (handleV2_tts_gating req e2).1,
   (handleV2_tts_gating req e2).2.1, (handleV2_tts_gating req e2).2.2⟩

/-- Concrete witness request for C8: a plain text message. -/
def wReqText : Req :=
  { body := some (str "Drinking lemon water cures cancer")
    mediaContentType := none, fromNum := [], toNum := [] }

/-- Witness for C8: for a concrete text input neither handler attaches audio. -/
theorem c8_witness :
    isPrefixL (str "audio") (wReqText.mediaContentType.getD []) = false ∧
    (handleV1 wReqText wEnv1).media = none ∧
    (handleV2 wReqText wEnv2).media = none :=
  ⟨by decide,
   (c8_voice_in_voice_out wReqText wEnv1 wEnv2).2.1 (by decide),
   (c8_voice_in_voice_out wReqText wEnv1 wEnv2).2.2.2.2.1 (by decide)⟩

/-- Delivery-coordination invariant for one request against the outcome `e` of
the REST push: (1) the REST path and a synchronous message never both carry a
delivery; (2) an attempted REST send that resolved forces the empty
acknowledgment as the synchronous reply, with the REST body delivered; (3)
when no REST send was attempted, or the send was rejected, nothing was
delivered on the REST path and the synchronous TwiML message (always present)
is the only delivery. -/
def dedupInvariant (e : Env2) (x : Out2) : Prop :=
  (¬ (x.restDelivered.isSome = true ∧ x.syncMessage.isSome = true)) ∧
  (x.restAttempted = true → ∀ s, e.rest = Except.ok s →
     x.syncMessage = none ∧ x.restDelivered.isSome = true) ∧
  ((x.restAttempted = false ∨ (∃ uu, e.rest = Except.error uu)) →
     x.restDelivered = none ∧ x.syncMessage.isSome = true)

theorem dedup_base (e : Env2) (x : Out2)
    (h1 : x.restAttempted = false) (h2 : x.restDelivered = none)
    (h3 : x.syncMessage.isSome = true) : dedupInvariant e x := by
  refine ⟨?_, ?_, ?_⟩
  · rintro ⟨hd, -⟩
    rw [h2] at hd
    exact absurd hd (by simp)
  · intro ha
    rw [h1] at ha
    exact absurd ha (by simp)
  · intro _
    exact ⟨h2, h3⟩

theorem dedup_applyFallback (req : Req) (e : Env2) (o : Out2) (fr : List Char)
    (hsid : ∀ s, e.rest = Except.ok s → s ≠ [])
    (h1 : o.restAttempted = false) (h2 : o.restDelivered = none)
    (h3 : o.syncMessage.isSome = true) :
    dedupInvariant e (applyFallback req e o fr) := by
  unfold applyFallback
  by_cases hc : ((extractURL (req.body.getD [])).isSome && e.accountSidSet &&
      e.authTokenSet) = true
  · rw [if_pos hc]
    cases he : e.rest with
    | error u =>
      refine ⟨?_, ?_, ?_⟩
      · rintro ⟨hd, -⟩
        simp [h2] at hd
      · intro _ s hs
        rw [he] at hs
        cases hs
      · intro _
        exact ⟨by simpa using h2, by simpa using h3⟩
    | ok sid =>
      have hne : sid ≠ [] := hsid sid he
      have hE : sid.isEmpty = false := by
        cases sid with
        | nil => exact absurd rfl hne
        | cons a b => rfl
      simp only [hE, Bool.not_false, if_pos]
      refine ⟨?_, ?_, ?_⟩
      · rintro ⟨-, hs⟩
        simp at hs
      · intro _ s _
        exact ⟨rfl, by simp⟩
      · intro hor
        rcases hor with hf | ⟨uu, hu⟩
        · simp at hf
        · rw [he] at hu
          cases hu
  · rw [if_neg hc]
    exact dedup_base e o h1 h2 h3

theorem mainV2_dedup (req : Req) (e : Env2) (a i dl api : Bool) (m : List Char)
    (hsid : ∀ s, e.rest = Except.ok s → s ≠ []) :
    dedupInvariant e (mainV2 req e a i dl api m) := by
  unfold mainV2
  repeat' split
  all_goals exact dedup_applyFallback _ _ _ _ hsid rfl rfl rfl

/-- C3: at most one non-empty reply reaches the user per request.  When the
inbound body contains a URL and the asynchronous REST send resolves (Twilio
resolves a send with a non-empty message sid, the `hsid` hypothesis), the
synchronous reply is the empty acknowledgment and the REST body is the single
delivery; in every other case (no URL, missing credentials, early return, or a
rejected send) the synchronous TwiML reply is the single delivery and nothing
is delivered on the REST path. -/
theorem c3_delivery_dedup (req : Req) (e2 : Env2)
    (hsid : ∀ s, e2.rest = Except.ok s → s ≠ []) :
    dedupInvariant e2 (handleV2 req e2) := by
  rcases handleV2_shape req e2 with ⟨msg, -, dlc, apic, h⟩ | ⟨dlc, h⟩ | ⟨api, m, h⟩ <;> rw [h]
  · exact dedup_base _ _ rfl rfl rfl
  · exact dedup_applyFallback _ _ _ _ hsid rfl rfl rfl
  · exact mainV2_dedup req e2 _ _ _ _ m hsid

/-- Concrete witness request for C3: a text message containing a URL. -/
def wReqUrl : Req :=
  { body := some (str "check https://a.example/x now")
    mediaContentType := none, fromNum := [], toNum := [] }

/-- Witness for C3: on a concrete URL-bearing request with a resolved REST
send, the synchronous reply is the empty acknowledgment and the REST body is
the only delivery. -/
theorem c3_witness :
    (handleV2 wReqUrl wEnv2).restAttempted = true ∧
    (handleV2 wReqUrl wEnv2).syncMessage = none ∧
    (handleV2 wReqUrl wEnv2).restDelivered.isSome = true := by
  have hsid : ∀ s, wEnv2.rest = Except.ok s → s ≠ [] := by
    rintro s hs
    cases hs
    decide
  have h := (c3_delivery_dedup wReqUrl wEnv2 hsid).2.1 (by decide) (str "SM123") rfl
  exact ⟨by decide, h.1, h.2⟩

/-!
## Length bounding (C1, C2)
-/

theorem jsLen_hardCut (s : List Char) : jsLen (hardCut s) ≤ 1467 := by
  unfold hardCut
  rw [jsLen_append]
  have h1 := jsLen_jsTake_le 1450 s
  have h2 : jsLen (str "...\n\n📋 Truncated") = 17 := by decide
  omega

theorem boundResponse_le (s : List Char) : jsLen (boundResponse s) ≤ 1500 := by
  simp only [boundResponse]
  split
  · split
    · have := jsLen_hardCut (optimizeResponse s)
      omega
    · omega
  · omega

theorem applyFallback_bound (req : Req) (e : Env2) (o : Out2) (fr : List Char)
    (hfr : jsLen fr ≤ 1500)
    (ho : ∀ t, o.syncMessage = some t → jsLen t ≤ 1500)
    (hod : o.restDelivered = none) :
    (∀ t, (applyFallback req e o fr).syncMessage = some t → jsLen t ≤ 1500) ∧
    (∀ t, (applyFallback req e o fr).restDelivered = some t → jsLen t ≤ 1500) := by
  have hbody : ∀ t, (if 1500 < jsLen fr then jsTake 1450 fr ++ restTruncNotice else fr) = t →
      jsLen t ≤ 1500 := by
    intro t ht
    subst ht
    split
    · rw [jsLen_append]
      have h1 := jsLen_jsTake_le 1450 fr
      have h2 : jsLen restTruncNotice = 25 := by decide
      omega
    · exact hfr
  unfold applyFallback
  by_cases hc : ((extractURL (req.body.getD [])).isSome && e.accountSidSet &&
      e.authTokenSet) = true
  · rw [if_pos hc]
    cases he : e.rest with
    | error u =>
      refine ⟨fun t ht => ho t (by simp at ht; exact ht), fun t ht => ?_⟩
      have hd : o.restDelivered = some t := by simp at ht; exact ht
      rw [hod] at hd
      cases hd
    | ok sid =>
      by_cases hE : (!sid.isEmpty) = true
      · refine ⟨fun t ht => ?_, fun t ht => ?_⟩
        · have hn : (none : Option (List Char)) = some t := by
            rw [← ht]
            simp [hE]
          cases hn
        · have ht2 : (if 1500 < jsLen fr then jsTake 1450 fr ++ restTruncNotice else fr) = t := by
            simpa [hE] using ht
          exact hbody t ht2
      · refine ⟨fun t ht => ho t (by simpa [hE] using ht), fun t ht => ?_⟩
        have ht2 : (if 1500 < jsLen fr then jsTake 1450 fr ++ restTruncNotice else fr) = t := by
          simpa [hE] using ht
        exact hbody t ht2
  · rw [if_neg hc]
    exact ⟨ho, fun t ht => by rw [hod] at ht; cases ht⟩

theorem jsLen_earlyMsgsV2 : ∀ msg ∈ earlyMsgsV2, jsLen msg ≤ 1500 := by decide

theorem mainV2_nonaudio_bound (req : Req) (e : Env2) (i dl api : Bool) (m : List Char) :
    (∀ t, (mainV2 req e false i dl api m).syncMessage = some t → jsLen t ≤ 1500) ∧
    (∀ t, (mainV2 req e false i dl api m).restDelivered = some t → jsLen t ≤ 1500) := by
  unfold mainV2
  cases hs : e.sonar with
  | error u =>
    refine applyFallback_bound _ _ _ _ (by decide) ?_ rfl
    intro t ht
    simp only [Option.some.injEq] at ht
    subst ht
    decide
  | ok c =>
    simp only [Bool.false_eq_true, if_false]
    refine applyFallback_bound _ _ _ _ (boundResponse_le _) ?_ rfl
    intro t ht
    simp only [Option.some.injEq] at ht
    subst ht
    exact boundResponse_le _

/-- C1 (amended): for every non-audio input (text and image), every message
body the v2 handler delivers — the synchronous TwiML body, including the
truncation branch with its second hard-cut length check, and the REST-fallback
body — is at most 1500 UTF-16 units.  (The audio-input send path performs no
length check; see the counterexample.) -/
theorem c1_nonaudio_bounded (req : Req) (e2 : Env2)
    (hna : isPrefixL (str "audio") (req.mediaContentType.getD []) = false) :
    (∀ t, (handleV2 req e2).syncMessage = some t → jsLen t ≤ 1500) ∧
    (∀ t, (handleV2 req e2).restDelivered = some t → jsLen t ≤ 1500) := by
  rcases handleV2_shape req e2 with ⟨msg, hmem, dlc, apic, h⟩ | ⟨dlc, h⟩ | ⟨api, m, h⟩ <;> rw [h]
  · refine ⟨fun t ht => ?_, fun t ht => ?_⟩
    · simp only [Option.some.injEq] at ht
      subst ht
      exact jsLen_earlyMsgsV2 msg hmem
    · cases ht
  · refine applyFallback_bound _ _ _ _ (by decide) ?_ rfl
    intro t ht
    simp only [Option.some.injEq] at ht
    subst ht
    decide
  · rw [hna]
    exact mainV2_nonaudio_bound req e2 _ _ _ m

/-- Witness for C1 (amended) at a concrete long text answer. -/
def wEnv2Long : Env2 := { wEnv2 with sonar := Except.ok (some (List.replicate 5000 'a')) }

theorem c1_witness :
    isPrefixL (str "audio") (wReqText.mediaContentType.getD []) = false ∧
    ∀ t, (handleV2 wReqText wEnv2Long).syncMessage = some t → jsLen t ≤ 1500 :=
  ⟨by decide, (c1_nonaudio_bounded wReqText wEnv2Long (by decide)).1⟩

/-- Counterexample input for C1: an audio request whose provider answer has
1600 characters; the audio send path applies no length check. -/
def cexReqC1 : Req :=
  { body := none, mediaContentType := some (str "audio/ogg"), fromNum := [], toNum := [] }

def cexEnvC1 : Env2 :=
  { wEnv2 with
    transcribe := TResult.ok (str "hi")
    sonar := Except.ok (some (List.replicate 1600 'a'))
    tts := none }

set_option maxRecDepth 4000000 in
/-- Counterexample for C1 as stated: for an audio input the v2 handler
delivers a synchronous reply longer than the 1500-unit transport limit. -/
theorem c1_counterexample :
    1500 < jsLen ((handleV2 cexReqC1 cexEnvC1).syncMessage.getD []) := by decide

/-!
## The truncation branch in detail (C2)
-/

/-- Boolean suffix test. -/
def endsWithL (p l : List Char) : Bool := isPrefixL p.reverse l.reverse

theorem isPrefixL_append_assoc (a b c d : List Char) :
    isPrefixL a (a ++ b ++ c ++ d) = true := by
  have h : a ++ b ++ c ++ d = a ++ (b ++ (c ++ d)) := by simp [List.append_assoc]
  rw [h]
  exact isPrefixL_append a _

theorem endsWithL_append_of (p b : List Char) (h : endsWithL p b = true) (a : List Char) :
    endsWithL p (a ++ b) = true := by
  unfold endsWithL at h ⊢
  rw [List.reverse_append]
  obtain ⟨t, ht⟩ := (isPrefixL_iff _ _).1 h
  exact (isPrefixL_iff _ _).2 ⟨t ++ a.reverse, by rw [← List.append_assoc, ht]⟩

/-- C2 (amended): when the sanitized answer exceeds the 1500-unit ceiling, the
re-derived shortened version starts with the first non-blank line (the status
line), keeps whole short lines within the 1200-unit budget, truncates long
lines at 120 units, and ends with the fixed "📋 Full analysis available on
request" notice — but only when that shortened version itself fits in 1500
units.  Otherwise a final hard cut at 1450 units is applied, whose output ends
with "...\n\n📋 Truncated" instead of the fixed notice (and may cut into the
status line).  In all cases the output is at most 1500 units. -/
theorem c2_truncation_branch (s : List Char) (h : 1500 < jsLen s) :
    jsLen (boundResponse s) ≤ 1500 ∧
    (jsLen (optimizeResponse s) ≤ 1500 →
      boundResponse s = optimizeResponse s ∧
      isPrefixL (((jsSplitNl s).filter (fun ln => !(jsTrim ln).isEmpty)).headD (str "undefined"))
        (boundResponse s) = true ∧
      endsWithL (str "📋 Full analysis available on request") (boundResponse s) = true) ∧
    (1500 < jsLen (optimizeResponse s) →
      boundResponse s = hardCut (optimizeResponse s) ∧
      endsWithL (str "...\n\n📋 Truncated") (boundResponse s) = true) := by
  refine ⟨boundResponse_le s, ?_, ?_⟩
  · intro hle
    have hbr : boundResponse s = optimizeResponse s := by
      simp only [boundResponse]
      rw [if_pos h, if_neg (by omega)]
    refine ⟨hbr, ?_, ?_⟩
    · rw [hbr]
      unfold optimizeResponse
      exact isPrefixL_append_assoc _ _ _ _
    · rw [hbr]
      unfold optimizeResponse
      exact endsWithL_append_of _ _ (by decide) _
  · intro hgt
    have hbr : boundResponse s = hardCut (optimizeResponse s) := by
      simp only [boundResponse]
      rw [if_pos h, if_pos hgt]
    refine ⟨hbr, ?_⟩
    rw [hbr]
    unfold hardCut
    exact endsWithL_append_of _ _ (by decide) _

/-- Witness for C2 (amended) at a concrete over-long input. -/
theorem c2_witness :
    1500 < jsLen (List.replicate 1501 'a') ∧
    jsLen (boundResponse (List.replicate 1501 'a')) ≤ 1500 :=
  ⟨by decide, (c2_truncation_branch (List.replicate 1501 'a') (by decide)).1⟩

/-!
## Identity of the sanitizing passes on trigger-free text (C4, C5)
-/

theorem lazyPairsF_id (opn cls : List Char) (rep : List Char → List Char) (ch : Char)
    (hch : ch ∈ opn) :
    ∀ (f : Nat) (l : List Char), ch ∉ l → lazyPairsF opn cls rep f l = l := by
  intro f
  induction f with
  | zero => intro l _; rfl
  | succ f ih =>
    intro l hl
    cases l with
    | nil => rfl
    | cons c cs =>
      have hpre : isPrefixL opn (c :: cs) = false := by
        cases hb : isPrefixL opn (c :: cs) with
        | false => rfl
        | true =>
          obtain ⟨t, ht⟩ := (isPrefixL_iff _ _).1 hb
          exact absurd (ht ▸ List.mem_append_left t hch) hl
      simp only [lazyPairsF, hpre, Bool.false_eq_true, if_false]
      exact congrArg (c :: ·) (ih cs fun hc => hl (List.mem_cons_of_mem _ hc))

theorem stripRefsF_id : ∀ (f : Nat) (l : List Char), '[' ∉ l → stripRefsF f l = l := by
  intro f
  induction f with
  | zero => intro l _; rfl
  | succ f ih =>
    intro l hl
    cases l with
    | nil => rfl
    | cons c cs =>
      have hc : ¬ c = '[' := fun h => hl (by rw [← h]; exact List.mem_cons_self c cs)
      simp only [stripRefsF, if_neg hc]
      exact congrArg (c :: ·) (ih cs fun hx => hl (List.mem_cons_of_mem _ hx))

theorem collapseNLF_id : ∀ (f : Nat) (l : List Char), '\n' ∉ l → collapseNLF f l = l := by
  intro f
  induction f with
  | zero => intro l _; rfl
  | succ f ih =>
    intro l hl
    cases l with
    | nil => rfl
    | cons c cs =>
      have hc : ¬ c = '\n' := fun h => hl (by rw [← h]; exact List.mem_cons_self c cs)
      simp only [collapseNLF, if_neg hc]
      exact congrArg (c :: ·) (ih cs fun hx => hl (List.mem_cons_of_mem _ hx))

theorem replaceCharL_id (t : Char) (r : List Char) :
    ∀ l : List Char, t ∉ l → replaceCharL t r l = l := by
  intro l
  induction l with
  | nil => intro _; rfl
  | cons c cs ih =>
    intro hl
    have hc : ¬ c = t := fun h => by subst h; exact hl (List.mem_cons_self c cs)
    simp only [replaceCharL, if_neg hc]
    exact congrArg (c :: ·) (ih fun hx => hl (List.mem_cons_of_mem _ hx))

theorem headerScanF_id : ∀ (f : Nat) (b : Bool) (l : List Char), '#' ∉ l →
    headerScanF f b l = l := by
  intro f
  induction f with
  | zero => intro b l _; rfl
  | succ f ih =>
    intro b l hl
    cases l with
    | nil => rfl
    | cons c cs =>
      have hc : ¬ c = '#' := fun h => hl (by rw [← h]; exact List.mem_cons_self c cs)
      simp only [headerScanF]
      rw [if_neg (by simp [hc])]
      exact congrArg (c :: ·) (ih _ cs fun hx => hl (List.mem_cons_of_mem _ hx))

theorem bulletScanF_id : ∀ (f : Nat) (b : Bool) (l : List Char), '•' ∉ l →
    bulletScanF f b l = l := by
  intro f
  induction f with
  | zero => intro b l _; rfl
  | succ f ih =>
    intro b l hl
    cases l with
    | nil => rfl
    | cons c cs =>
      have hc : ¬ c = '•' := fun h => hl (by rw [← h]; exact List.mem_cons_self c cs)
      simp only [bulletScanF]
      rw [if_neg (by simp [hc])]
      exact congrArg (c :: ·) (ih _ cs fun hx => hl (List.mem_cons_of_mem _ hx))

theorem nlRun3F_id : ∀ (f : Nat) (l : List Char), '\n' ∉ l → nlRun3F f l = l := by
  intro f
  induction f with
  | zero => intro l _; rfl
  | succ f ih =>
    intro l hl
    cases l with
    | nil => rfl
    | cons c cs =>
      have hc : ¬ c = '\n' := fun h => hl (by rw [← h]; exact List.mem_cons_self c cs)
      simp only [nlRun3F, if_neg hc]
      exact congrArg (c :: ·) (ih cs fun hx => hl (List.mem_cons_of_mem _ hx))

/-!
## `trim` idempotence and the plain-text fragment (C4)
-/

theorem dropWhile_head_false {p : Char → Bool} {l : List Char} {c : Char} {cs : List Char}
    (h : l.dropWhile p = c :: cs) : p c = false := by
  induction l with
  | nil => simp [List.dropWhile] at h
  | cons x xs ih =>
    rw [List.dropWhile_cons] at h
    split at h
    · exact ih h
    · next hx =>
      injection h with h1 _
      subst h1
      simpa using hx

theorem dropWhile_dropWhile (p : Char → Bool) (l : List Char) :
    (l.dropWhile p).dropWhile p = l.dropWhile p := by
  cases h : l.dropWhile p with
  | nil => rfl
  | cons c cs =>
    rw [List.dropWhile_cons, dropWhile_head_false h]
    simp

theorem jsTrim_idem (l : List Char) : jsTrim (jsTrim l) = jsTrim l := by
  unfold jsTrim
  have h1 : (((l.dropWhile isJsWs).reverse.dropWhile isJsWs).reverse).dropWhile isJsWs =
      ((l.dropWhile isJsWs).reverse.dropWhile isJsWs).reverse := by
    cases hcr : ((l.dropWhile isJsWs).reverse.dropWhile isJsWs).reverse with
    | nil => rfl
    | cons c cs =>
      have hsuf : (l.dropWhile isJsWs).reverse.dropWhile isJsWs <:+ (l.dropWhile isJsWs).reverse :=
        List.dropWhile_suffix _
      have hpre : (((l.dropWhile isJsWs).reverse.dropWhile isJsWs).reverse) <+:
          l.dropWhile isJsWs := by
        refine List.reverse_suffix.1 ?_
        rw [List.reverse_reverse]
        exact hsuf
      obtain ⟨t, ht⟩ := hpre
      rw [hcr] at ht
      have hA : l.dropWhile isJsWs = c :: (cs ++ t) := by
        rw [← ht]
        simp
      have hc : isJsWs c = false := dropWhile_head_false hA
      rw [List.dropWhile_cons, hc]
      simp
  rw [h1, List.reverse_reverse, dropWhile_dropWhile]

theorem mem_of_jsTrim {c : Char} {l : List Char} (hc : c ∈ jsTrim l) : c ∈ l := by
  unfold jsTrim at hc
  have h1 := List.mem_reverse.1 hc
  have h2 := (List.dropWhile_suffix isJsWs).subset h1
  have h3 := List.mem_reverse.1 h2
  exact (List.dropWhile_suffix isJsWs).subset h3

/-- The character fragment on which the sanitizers act as the identity (up to
trimming): letters, digits, space and common punctuation — none of the
characters any replacement pass triggers on. -/
def plainChars : List Char :=
  str "abcdefghijklmnopqrstuvwxyzABCDEFGHIJKLMNOPQRSTUVWXYZ0123456789 .,:;!?()-"

def plainChar (c : Char) : Bool := plainChars.contains c

theorem not_mem_of_plain (l : List Char) (h : ∀ c ∈ l, plainChar c = true)
    (c : Char) (hc : plainChar c = false) : c ∉ l := by
  intro hm
  rw [h c hm] at hc
  cases hc

theorem plain_not_ctl (c : Char) (h : plainChar c = true) : (!(isStripCtl c)) = true := by
  have hall : plainChars.all (fun x => !(isStripCtl x)) = true := by decide
  have hc : c ∈ plainChars := by simpa [plainChar] using h
  exact List.all_eq_true.1 hall c hc

/-- On plain text, `sanitizeForXML` only trims. -/
theorem sanitizeForXML_plain (l : List Char) (h : ∀ c ∈ l, plainChar c = true) :
    sanitizeForXML l = jsTrim l := by
  have hstar : '*' ∉ l := not_mem_of_plain l h '*' (by decide)
  have hbr : '[' ∉ l := not_mem_of_plain l h '[' (by decide)
  have hnl : '\n' ∉ l := not_mem_of_plain l h '\n' (by decide)
  have hamp : '&' ∉ l := not_mem_of_plain l h '&' (by decide)
  have hlt : '<' ∉ l := not_mem_of_plain l h '<' (by decide)
  have hgt : '>' ∉ l := not_mem_of_plain l h '>' (by decide)
  simp only [sanitizeForXML]
  rw [lazyPairsF_id _ _ _ '*' (by decide) _ _ hstar]
  rw [lazyPairsF_id _ _ _ '*' (by decide) _ _ hstar]
  rw [lazyPairsF_id _ _ _ '*' (by decide) _ _ hstar]
  rw [stripRefsF_id _ _ hbr]
  rw [collapseNLF_id _ _ hnl]
  rw [replaceCharL_id _ _ _ hamp]
  rw [replaceCharL_id _ _ _ hlt]
  rw [replaceCharL_id _ _ _ hgt]
  rw [List.filter_eq_self.2 (fun c hc => plain_not_ctl c (h c hc))]

/-- On plain text, `formatResponse` is the identity. -/
theorem formatResponse_plain (l : List Char) (h : ∀ c ∈ l, plainChar c = true) :
    formatResponse l = l := by
  have hstar : '*' ∉ l := not_mem_of_plain l h '*' (by decide)
  have hhash : '#' ∉ l := not_mem_of_plain l h '#' (by decide)
  have hbul : '•' ∉ l := not_mem_of_plain l h '•' (by decide)
  have hnl : '\n' ∉ l := not_mem_of_plain l h '\n' (by decide)
  simp only [formatResponse]
  rw [lazyPairsF_id _ _ _ '*' (by decide) _ _ hstar]
  rw [lazyPairsF_id _ _ _ '*' (by decide) _ _ hstar]
  rw [headerScanF_id _ _ _ hhash]
  rw [bulletScanF_id _ _ _ hbul]
  rw [nlRun3F_id _ _ hnl]

/-- C4 (amended): the transformations are idempotent on plain text — inputs
containing none of the characters any pass rewrites (no markup, brackets,
XML-reserved, control or newline characters).  In general they are not
idempotent; see the counterexample. -/
theorem c4_plain_idempotent (s : List Char) (h : ∀ c ∈ s, plainChar c = true) :
    sanitizeForXML (sanitizeForXML s) = sanitizeForXML s ∧
    formatResponse (formatResponse s) = formatResponse s := by
  have hp : ∀ c ∈ jsTrim s, plainChar c = true := fun c hc => h c (mem_of_jsTrim hc)
  constructor
  · rw [sanitizeForXML_plain s h, sanitizeForXML_plain (jsTrim s) hp, jsTrim_idem]
  · rw [formatResponse_plain s h, formatResponse_plain s h]

/-- Witness for C4 (amended) at a concrete plain answer. -/
theorem c4_witness :
    (∀ c ∈ str "Formatting looks fine.", plainChar c = true) ∧
    sanitizeForXML (sanitizeForXML (str "Formatting looks fine.")) =
      sanitizeForXML (str "Formatting looks fine.") :=
  ⟨by decide, (c4_plain_idempotent (str "Formatting looks fine.") (by decide)).1⟩

/-- Counterexample for C4 as stated: `sanitizeForXML` double-escapes the
ampersand (`&` → `&amp;` → `&amp;amp;`), and `formatResponse` re-converts the
bold it produced from a heading into italics (`# note` → `*note*` →
`_note_`).  Neither transformation is idempotent. -/
theorem c4_counterexample :
    sanitizeForXML (sanitizeForXML (str "&")) ≠ sanitizeForXML (str "&") ∧
    formatResponse (formatResponse (str "# note")) ≠ formatResponse (str "# note") := by
  decide

/-!
## The 5000-character scenario (C2 counterexample)
-/

theorem jsLen_replicate_one (n : Nat) (c : Char) (hc : charW c = 1) :
    jsLen (List.replicate n c) = n := by
  induction n with
  | zero => rfl
  | succ n ih =>
    rw [List.replicate_succ]
    have h : jsLen (c :: List.replicate n c) = charW c + jsLen (List.replicate n c) := by
      simp [jsLen]
    rw [h, hc, ih]
    omega

theorem jsSplitNl_no_nl : ∀ l : List Char, '\n' ∉ l → jsSplitNl l = [l] := by
  intro l
  induction l with
  | nil => intro _; rfl
  | cons c cs ih =>
    intro hl
    have hc : ¬ c = '\n' := fun h => hl (by rw [← h]; exact List.mem_cons_self c cs)
    simp only [jsSplitNl, if_neg hc]
    rw [ih (fun hx => hl (List.mem_cons_of_mem _ hx))]

theorem dropWhile_eq_self_of (p : Char → Bool) (l : List Char)
    (h : ∀ c ∈ l, p c = false) : l.dropWhile p = l := by
  cases l with
  | nil => rfl
  | cons c cs =>
    rw [List.dropWhile_cons, h c (List.mem_cons_self c cs)]
    simp

theorem jsTrim_of_no_ws (l : List Char) (h : ∀ c ∈ l, isJsWs c = false) : jsTrim l = l := by
  unfold jsTrim
  rw [dropWhile_eq_self_of _ _ h]
  rw [dropWhile_eq_self_of _ _ (fun c hc => h c (List.mem_reverse.1 hc))]
  exact List.reverse_reverse l

/-- Whatever precedes it, text ending in the hard-cut marker does not end in
the "more available" notice (the final characters differ). -/
theorem trunc_not_notice (x : List Char) :
    endsWithL (str "📋 Full analysis available on request")
      (x ++ str "...\n\n📋 Truncated") = false := by
  unfold endsWithL
  rw [List.reverse_append]
  have h1 : (str "📋 Full analysis available on request").reverse =
      't' :: (str "📋 Full analysis available on reques").reverse := by decide
  have h2 : (str "...\n\n📋 Truncated").reverse =
      'd' :: (str "...\n\n📋 Truncate").reverse := by decide
  rw [h1, h2, List.cons_append]
  simp [isPrefixL]

/-- Counterexample for C2 as stated: a 5000-character single-line provider
answer.  The bounded output stays within the limit (see the amended theorem),
but it does not end with the fixed "more available" notice: the shortened
version starts with the 5000-unit first line, so the hard cut applies and the
output ends with `...\n\n📋 Truncated` instead. -/
theorem c2_counterexample :
    jsLen (List.replicate 5000 'a') = 5000 ∧
    endsWithL (str "📋 Full analysis available on request")
      (boundResponse (sanitizeForXML (List.replicate 5000 'a'))) = false := by
  have hplain : ∀ c ∈ List.replicate 5000 'a', plainChar c = true := by
    intro c hc
    rw [List.eq_of_mem_replicate hc]
    decide
  have hnws : ∀ c ∈ List.replicate 5000 'a', isJsWs c = false := by
    intro c hc
    rw [List.eq_of_mem_replicate hc]
    decide
  have hlen : jsLen (List.replicate 5000 'a') = 5000 :=
    jsLen_replicate_one 5000 'a' (by decide)
  have hsan : sanitizeForXML (List.replicate 5000 'a') = List.replicate 5000 'a' := by
    rw [sanitizeForXML_plain _ hplain, jsTrim_of_no_ws _ hnws]
  have hsplit : jsSplitNl (List.replicate 5000 'a') = [List.replicate 5000 'a'] := by
    refine jsSplitNl_no_nl _ ?_
    intro hm
    exact absurd (List.eq_of_mem_replicate hm) (by decide)
  have hfil : (!(jsTrim (List.replicate 5000 'a')).isEmpty) = true := by
    rw [jsTrim_of_no_ws _ hnws]
    rfl
  have hopt : optimizeResponse (List.replicate 5000 'a') =
      List.replicate 5000 'a' ++ str "\n\n" ++ jsTrim [] ++
        str "\n\n📋 Full analysis available on request" := by
    simp only [optimizeResponse, hsplit, List.filter_cons, List.filter_nil, hfil, if_true]
    rfl
  have hlopt : 1500 < jsLen (optimizeResponse (List.replicate 5000 'a')) := by
    rw [hopt, jsLen_append, jsLen_append, jsLen_append, hlen]
    omega
  have h1500 : 1500 < jsLen (List.replicate 5000 'a') := by omega
  have hbound : boundResponse (List.replicate 5000 'a') =
      hardCut (optimizeResponse (List.replicate 5000 'a')) := by
    simp only [boundResponse]
    rw [if_pos h1500, if_pos hlopt]
  refine ⟨hlen, ?_⟩
  rw [hsan, hbound]
  unfold hardCut
  exact trunc_not_notice _

/-!
## Residual-asterisk analysis (C5)
-/

theorem takeWhile_eq_self_of (p : Char → Bool) (l : List Char)
    (h : ∀ c ∈ l, p c = true) : l.takeWhile p = l := by
  induction l with
  | nil => rfl
  | cons c cs ih =>
    rw [List.takeWhile_cons, h c (List.mem_cons_self c cs)]
    simp [ih (fun x hx => h x (List.mem_cons_of_mem _ hx))]

theorem splitLastC_eq_some {ch : Char} {l p q : List Char}
    (h : splitLastC ch l = some (p, q)) : p ++ [ch] ++ q = l := by
  unfold splitLastC at h
  cases hs : splitFirst [ch] l.reverse with
  | none => rw [hs] at h; cases h
  | some ab =>
    obtain ⟨ra, rb⟩ := ab
    rw [hs] at h
    injection h with h'
    injection h' with h1 h2
    subst h1
    subst h2
    have hr := splitFirst_eq_some hs
    have h3 : l = rb.reverse ++ [ch] ++ ra.reverse := by
      rw [← List.reverse_reverse l, ← hr]
      simp
    exact h3.symm

theorem lazyPairsF_mem (opn cls : List Char) :
    ∀ (f : Nat) (l : List Char) (c : Char), c ∈ lazyPairsF opn cls id f l → c ∈ l := by
  intro f
  induction f with
  | zero => intro l c hc; exact hc
  | succ f ih =>
    intro l c hc
    cases l with
    | nil => simp only [lazyPairsF] at hc; exact hc
    | cons x xs =>
      by_cases hpre : isPrefixL opn (x :: xs) = true
      · obtain ⟨t, ht⟩ := (isPrefixL_iff _ _).1 hpre
        have hdrop : (x :: xs).drop opn.length = t := by
          rw [← ht]
          exact List.drop_left opn t
        rw [lazyPairsF, if_pos hpre] at hc
        simp only [hdrop] at hc
        have hsegsub : ∀ y ∈ t.takeWhile (fun z => !(isLineTerm z)), y ∈ (x :: xs) := by
          intro y hy
          have h1 := (List.takeWhile_prefix (fun z => !(isLineTerm z))).subset hy
          rw [← ht]
          exact List.mem_append_right opn h1
        cases hsp : splitFirst cls (t.takeWhile fun z => !(isLineTerm z)) with
        | none =>
          rw [hsp] at hc
          rcases List.mem_cons.1 hc with h1 | h1
          · rw [h1]; exact List.mem_cons_self x xs
          · exact List.mem_cons_of_mem x (ih xs c h1)
        | some ab =>
          obtain ⟨mid, segRest⟩ := ab
          rw [hsp] at hc
          have hdec := splitFirst_eq_some hsp
          rcases List.mem_append.1 hc with h1 | h1
          · refine hsegsub c ?_
            rw [← hdec]
            simp only [id] at h1
            exact List.mem_append_left _ (List.mem_append_left _ h1)
          · have h2 := ih _ c h1
            rcases List.mem_append.1 h2 with h3 | h3
            · refine hsegsub c ?_
              rw [← hdec]
              exact List.mem_append_right _ h3
            · have h4 := List.drop_subset _ t h3
              rw [← ht]
              exact List.mem_append_right opn h4
      · rw [lazyPairsF, if_neg hpre] at hc
        rcases List.mem_cons.1 hc with h1 | h1
        · rw [h1]; exact List.mem_cons_self x xs
        · exact List.mem_cons_of_mem x (ih xs c h1)

/-- An opener cannot match when the list holds fewer copies of a character
than the opener itself (e.g. `- **` inside a text with at most one `*`). -/
theorem lazyPairsF_id_count (opn cls : List Char) (rep : List Char → List Char) (ch : Char) :
    ∀ (f : Nat) (l : List Char), l.count ch < opn.count ch →
      lazyPairsF opn cls rep f l = l := by
  intro f
  induction f with
  | zero => intro l _; rfl
  | succ f ih =>
    intro l hlt
    cases l with
    | nil => rfl
    | cons x xs =>
      by_cases hpre : isPrefixL opn (x :: xs) = true
      · exfalso
        obtain ⟨t, ht⟩ := (isPrefixL_iff _ _).1 hpre
        rw [← ht, List.count_append] at hlt
        omega
      · rw [lazyPairsF, if_neg hpre]
        refine congrArg (x :: ·) (ih xs ?_)
        have : xs.count ch ≤ (x :: xs).count ch := by
          simp only [List.count_cons]
          omega
        omega

/-- After the `*`-pair stripping pass, a line-terminator-free text holds at
most one `*`: the pass removes asterisks pairwise and only an unpaired final
asterisk survives. -/
theorem italic_count_le_one :
    ∀ (f : Nat) (l : List Char), (∀ c ∈ l, isLineTerm c = false) → l.length < f →
      (lazyPairsF (str "*") (str "*") id f l).count '*' ≤ 1 := by
  intro f
  induction f with
  | zero => intro l _ hf; exact absurd hf (Nat.not_lt_zero _)
  | succ f ih =>
    intro l hterm hf
    cases l with
    | nil => simp [lazyPairsF]
    | cons x xs =>
      by_cases hpre : isPrefixL (str "*") (x :: xs) = true
      · obtain ⟨t, ht⟩ := (isPrefixL_iff _ _).1 hpre
        have ht2 : '*' :: t = x :: xs := ht
        injection ht2 with hx hxs
        subst hxs
        have hseg : t.takeWhile (fun c => !(isLineTerm c)) = t := by
          refine takeWhile_eq_self_of _ _ ?_
          intro c hc
          rw [hterm c (List.mem_cons_of_mem _ hc)]
          rfl
        have hdrop : (x :: t).drop (str "*").length = t := rfl
        rw [lazyPairsF, if_pos hpre]
        simp only [hdrop, hseg]
        cases hsp : splitFirst (str "*") t with
        | none =>
          have hnostar : '*' ∉ t := splitFirst_single_none hsp
          rw [lazyPairsF_id (str "*") (str "*") id '*' (by decide) f t hnostar]
          rw [← hx]
          simp [List.count_cons, List.count_eq_zero.2 hnostar]
        | some ab =>
          obtain ⟨mid, segRest⟩ := ab
          have hdec : mid ++ ['*'] ++ segRest = t := splitFirst_eq_some hsp
          have hmid : '*' ∉ mid := splitFirst_single_some hsp
          show List.count '*'
              (id mid ++
                lazyPairsF (str "*") (str "*") id f (segRest ++ List.drop t.length t)) ≤ 1
          rw [List.drop_length, List.append_nil, List.count_append]
          have h0 : mid.count '*' = 0 := List.count_eq_zero.2 hmid
          have hlen2 : segRest.length < f := by
            have hL : t.length = mid.length + 1 + segRest.length := by
              rw [← hdec]
              simp
              omega
            have hf2 : (x :: t).length < f + 1 := hf
            simp only [List.length_cons] at hf2
            omega
          have hterm2 : ∀ c ∈ segRest, isLineTerm c = false := by
            intro c hc
            refine hterm c (List.mem_cons_of_mem _ ?_)
            rw [← hdec]
            exact List.mem_append_right _ hc
          have hrec := ih segRest hterm2 hlen2
          simp only [id]
          omega
      · rw [lazyPairsF, if_neg hpre]
        have hxne : ¬ x = '*' := by
          intro h
          apply hpre
          subst h
          exact (isPrefixL_iff _ _).2 ⟨xs, rfl⟩
        have hterm2 : ∀ c ∈ xs, isLineTerm c = false :=
          fun c hc => hterm c (List.mem_cons_of_mem _ hc)
        have hlen2 : xs.length < f := by
          have hf2 : (x :: xs).length < f + 1 := hf
          simp only [List.length_cons] at hf2
          omega
        have hrec := ih xs hterm2 hlen2
        simp only [List.count_cons]
        simp [hxne]
        omega

/-- Decomposition of a list at its `takeWhile` prefix. -/
theorem takeWhile_append_drop (p : Char → Bool) :
    ∀ l : List Char, l.takeWhile p ++ l.drop (l.takeWhile p).length = l := by
  intro l
  induction l with
  | nil => rfl
  | cons c cs ih =>
    rw [List.takeWhile_cons]
    by_cases h : p c
    · simp [h, ih]
    · simp [h]

/-- The citation-marker stripper never increases the number of copies of any
character: it only deletes a bracketed run or copies characters through. -/
theorem stripRefsF_count_le (ch : Char) :
    ∀ (f : Nat) (l : List Char), (stripRefsF f l).count ch ≤ l.count ch := by
  intro f
  induction f with
  | zero => intro l; exact Nat.le_refl _
  | succ f ih =>
    intro l
    cases l with
    | nil => simp [stripRefsF]
    | cons c cs =>
      by_cases h : c = '['
      · simp only [stripRefsF]
        rw [if_pos h]
        cases hs : splitLastC ']' (cs.takeWhile refClass) with
        | none =>
          simp only [hs, List.count_cons]
          exact Nat.add_le_add_right (ih cs) _
        | some pq =>
          obtain ⟨p, q⟩ := pq
          simp only [hs]
          by_cases hp : p.isEmpty
          · rw [if_pos hp]
            simp only [List.count_cons]
            exact Nat.add_le_add_right (ih cs) _
          · rw [if_neg hp]
            have h1 := ih (q ++ cs.drop (cs.takeWhile refClass).length)
            rw [List.count_append] at h1
            have hrun : p ++ [']'] ++ q = cs.takeWhile refClass := splitLastC_eq_some hs
            have hq : List.count ch q ≤ List.count ch (cs.takeWhile refClass) := by
              rw [← hrun, List.count_append]
              omega
            have hcs : List.count ch cs =
                List.count ch (cs.takeWhile refClass) +
                  List.count ch (cs.drop (cs.takeWhile refClass).length) := by
              conv_lhs => rw [← takeWhile_append_drop refClass cs]
              rw [List.count_append]
            simp only [List.count_cons]
            omega
      · simp only [stripRefsF]
        rw [if_neg h]
        simp only [List.count_cons]
        exact Nat.add_le_add_right (ih cs) _

/-- The blank-line collapser never increases the number of copies of a
character other than the newline. -/
theorem collapseNLF_count_le (ch : Char) (hch : ch ≠ '\n') :
    ∀ (f : Nat) (l : List Char), (collapseNLF f l).count ch ≤ l.count ch := by
  have hch2 : ¬ '\n' = ch := fun hh => hch hh.symm
  have hbeq : ('\n' == ch) = false := by
    simp [hch2]
  intro f
  induction f with
  | zero => intro l; exact Nat.le_refl _
  | succ f ih =>
    intro l
    cases l with
    | nil => simp [collapseNLF]
    | cons c cs =>
      by_cases h : c = '\n'
      · simp only [collapseNLF]
        rw [if_pos h]
        cases hs : splitLastC '\n' (cs.takeWhile isJsWs) with
        | none =>
          simp only [hs, List.count_cons]
          exact Nat.add_le_add_right (ih cs) _
        | some pq =>
          obtain ⟨p, q⟩ := pq
          simp only [hs]
          by_cases hp : p.contains '\n'
          · rw [if_pos hp]
            have h1 := ih (q ++ cs.drop (cs.takeWhile isJsWs).length)
            rw [List.count_append] at h1
            have hrun : p ++ ['\n'] ++ q = cs.takeWhile isJsWs := splitLastC_eq_some hs
            have hq : List.count ch q ≤ List.count ch (cs.takeWhile isJsWs) := by
              rw [← hrun, List.count_append]
              omega
            have hcs : List.count ch cs =
                List.count ch (cs.takeWhile isJsWs) +
                  List.count ch (cs.drop (cs.takeWhile isJsWs).length) := by
              conv_lhs => rw [← takeWhile_append_drop isJsWs cs]
              rw [List.count_append]
            subst h
            simp [List.count_cons, hbeq]
            omega
          · rw [if_neg hp]
            simp only [List.count_cons]
            exact Nat.add_le_add_right (ih cs) _
      · simp only [collapseNLF]
        rw [if_neg h]
        simp only [List.count_cons]
        exact Nat.add_le_add_right (ih cs) _

/-- A character-to-string replacement never increases the number of copies of
a character that is neither the target nor in the replacement. -/
theorem replaceCharL_count_le (t : Char) (r : List Char) (ch : Char)
    (hr : r.count ch = 0) :
    ∀ l : List Char, (replaceCharL t r l).count ch ≤ l.count ch := by
  intro l
  induction l with
  | nil => simp [replaceCharL]
  | cons c cs ih =>
    rw [replaceCharL]
    by_cases h : c = t
    · rw [if_pos h]
      rw [List.count_append, hr]
      simp only [List.count_cons]
      omega
    · rw [if_neg h]
      simp only [List.count_cons]
      exact Nat.add_le_add_right ih _

/-- Trimming never increases the number of copies of any character. -/
theorem jsTrim_count_le (ch : Char) (l : List Char) :
    (jsTrim l).count ch ≤ l.count ch := by
  unfold jsTrim
  have h1 : (((l.dropWhile isJsWs).reverse.dropWhile isJsWs)).count ch ≤
      ((l.dropWhile isJsWs).reverse).count ch :=
    (List.dropWhile_sublist isJsWs).count_le ch
  have h2 : (l.dropWhile isJsWs).count ch ≤ l.count ch :=
    (List.dropWhile_sublist isJsWs).count_le ch
  simp only [List.count_reverse] at h1 ⊢
  omega

/-- A text containing the substring `**` holds at least two asterisks. -/
theorem hasSub_dstar_count {l : List Char} (h : hasSub (str "**") l = true) :
    2 ≤ l.count '*' := by
  unfold hasSub at h
  cases hs : splitFirst (str "**") l with
  | none => rw [hs] at h; cases h
  | some ab =>
    obtain ⟨a, b⟩ := ab
    have hd := splitFirst_eq_some hs
    have hstr : List.count '*' (str "**") = 2 := by decide
    rw [← hd, List.count_append, List.count_append, hstr]
    omega

/-- Chained through every pass of `sanitizeForXML`: a line-terminator-free
input leaves at most one (unpaired) asterisk in the sanitized output.  The
bold and italic passes strip `*` pairwise, the `- **` pass cannot fire on at
most one `*`, and every later pass is count-non-increasing. -/
theorem sanitizeForXML_count_star (l : List Char)
    (hterm : ∀ c ∈ l, isLineTerm c = false) :
    (sanitizeForXML l).count '*' ≤ 1 := by
  simp only [sanitizeForXML]
  set s1 := lazyPairsF (str "**") (str "**") id (l.length + 1) l with hs1
  set s2 := lazyPairsF (str "*") (str "*") id (s1.length + 1) s1 with hs2
  set s3 := lazyPairsF (str "- **") (str "**") (fun m => str "• " ++ m)
      (s2.length + 1) s2 with hs3
  set s4 := stripRefsF (s3.length + 1) s3 with hs4
  set s5 := collapseNLF (s4.length + 1) s4 with hs5
  set s6 := replaceCharL '&' (str "&amp;") s5 with hs6
  set s7 := replaceCharL '<' (str "&lt;") s6 with hs7
  set s8 := replaceCharL '>' (str "&gt;") s7 with hs8
  set s9 := s8.filter (fun c => !(isStripCtl c)) with hs9
  have hterm1 : ∀ c ∈ s1, isLineTerm c = false := fun c hc =>
    hterm c (lazyPairsF_mem _ _ _ _ c (hs1 ▸ hc))
  have h2 : s2.count '*' ≤ 1 := by
    rw [hs2]
    exact italic_count_le_one (s1.length + 1) s1 hterm1 (Nat.lt_succ_self _)
  have h3 : s3.count '*' ≤ 1 := by
    have hid : s3 = s2 := by
      rw [hs3]
      refine lazyPairsF_id_count _ _ _ '*' _ s2 ?_
      have hc : List.count '*' (str "- **") = 2 := by decide
      omega
    rw [hid]
    exact h2
  have h4 : s4.count '*' ≤ s3.count '*' := by
    rw [hs4]
    exact stripRefsF_count_le '*' _ s3
  have h5 : s5.count '*' ≤ s4.count '*' := by
    rw [hs5]
    exact collapseNLF_count_le '*' (by decide) _ s4
  have h6 : s6.count '*' ≤ s5.count '*' := by
    rw [hs6]
    exact replaceCharL_count_le '&' (str "&amp;") '*' (by decide) s5
  have h7 : s7.count '*' ≤ s6.count '*' := by
    rw [hs7]
    exact replaceCharL_count_le '<' (str "&lt;") '*' (by decide) s6
  have h8 : s8.count '*' ≤ s7.count '*' := by
    rw [hs8]
    exact replaceCharL_count_le '>' (str "&gt;") '*' (by decide) s7
  have h9 : s9.count '*' ≤ s8.count '*' := by
    rw [hs9]
    exact (List.filter_sublist s8).count_le '*'
  have h10 : (jsTrim s9).count '*' ≤ s9.count '*' := jsTrim_count_le '*' s9
  omega

/-- C5 counterexample to the original claim: the heading marker `#` is a
source markup token, yet `sanitizeForXML` passes it through verbatim; and
`formatResponse` applied to a heading line ending in a stray `*` emits a
`**` into its output. -/
theorem c5_counterexample :
    hasSub (str "#") (str "# Verdict: false") = true ∧
      sanitizeForXML (str "# Verdict: false") = str "# Verdict: false" ∧
      formatResponse (str "# *") = str "***" ∧
      hasSub (str "**") (formatResponse (str "# *")) = true := by
  refine ⟨by decide, by decide, by decide, by decide⟩

/-- Two adjacent asterisks falsify the scan from any state. -/
theorem star_scan_dstar : ∀ (a : List Char) (seen : Bool) (b : List Char),
    starScan seen (a ++ '*' :: '*' :: b) = false := by
  have h1 : isLineTerm '*' = false := by decide
  intro a
  induction a with
  | nil =>
    intro seen b
    cases seen <;> simp [starScan, h1]
  | cons c a ih =>
    intro seen b
    rw [List.cons_append, starScan]
    by_cases hc : isLineTerm c = true
    · rw [if_pos hc]
      exact ih false b
    · rw [if_neg hc]
      by_cases hs : c = '*'
      · rw [if_pos hs, ih true b]
        simp
      · rw [if_neg hs]
        exact ih seen b

/-- A star-free, terminator-free block passes through the scan unchanged. -/
theorem star_scan_skip (m : List Char) (hstar : '*' ∉ m)
    (hterm : ∀ c ∈ m, isLineTerm c = false) :
    ∀ (seen : Bool) (R : List Char), starScan seen (m ++ R) = starScan seen R := by
  induction m with
  | nil => intro seen R; rfl
  | cons c m ih =>
    intro seen R
    rw [List.cons_append, starScan]
    rw [if_neg (by simp [hterm c (List.mem_cons_self c m)])]
    rw [if_neg (fun h : c = '*' => hstar (by rw [h] at *; exact List.mem_cons_self _ _))]
    exact ih (fun h => hstar (List.mem_cons_of_mem c h))
      (fun d hd => hterm d (List.mem_cons_of_mem c hd)) seen R

/-- From the reset state, a star-free block passes through the scan
unchanged: terminators in it only re-enter the reset state. -/
theorem star_scan_skip_false (m : List Char) (hstar : '*' ∉ m) :
    ∀ R : List Char, starScan false (m ++ R) = starScan false R := by
  induction m with
  | nil => intro R; rfl
  | cons c m ih =>
    intro R
    rw [List.cons_append, starScan]
    by_cases hc : isLineTerm c = true
    · rw [if_pos hc]
      exact ih (fun h => hstar (List.mem_cons_of_mem c h)) R
    · rw [if_neg hc]
      rw [if_neg (fun h : c = '*' => hstar (by rw [h] at *; exact List.mem_cons_self _ _))]
      exact ih (fun h => hstar (List.mem_cons_of_mem c h)) R

/-- A scan that accepts a concatenation accepts its left part. -/
theorem star_scan_append_left : ∀ (A : List Char) (seen : Bool) (B : List Char),
    starScan seen (A ++ B) = true → starScan seen A = true := by
  intro A
  induction A with
  | nil => intro seen B _; rfl
  | cons c A ih =>
    intro seen B h
    rw [List.cons_append, starScan] at h
    rw [starScan]
    by_cases hc : isLineTerm c = true
    · rw [if_pos hc] at h ⊢
      exact ih false B h
    · rw [if_neg hc] at h ⊢
      by_cases hs : c = '*'
      · rw [if_pos hs] at h ⊢
        rw [Bool.and_eq_true] at h ⊢
        exact ⟨h.1, ih true B h.2⟩
      · rw [if_neg hs] at h ⊢
        exact ih seen B h

/-- Characters of the citation class are not asterisks. -/
theorem refClass_not_star {c : Char} (h : refClass c = true) : ¬ c = '*' := by
  intro hc
  subst hc
  exact absurd h (by decide)

/-- Characters of the citation class are not line terminators. -/
theorem refClass_not_term {c : Char} (h : refClass c = true) : isLineTerm c = false := by
  cases hl : isLineTerm c
  · rfl
  · exfalso
    unfold isLineTerm at hl
    simp only [Bool.or_eq_true, decide_eq_true_eq] at hl
    unfold refClass at h
    simp only [Bool.or_eq_true, decide_eq_true_eq] at h
    rcases hl with ((h1 | h1) | h1) | h1
    · subst h1
      rcases h with ((h2 | h2) | h2) | h2 <;> exact absurd h2 (by decide)
    · subst h1
      rcases h with ((h2 | h2) | h2) | h2 <;> exact absurd h2 (by decide)
    · rcases h with ((h2 | h2) | h2) | h2
      · have hd : '0'.val ≤ c.val ∧ c.val ≤ '9'.val := by
          unfold Char.isDigit at h2
          simp [Bool.and_eq_true] at h2
          exact h2
        rw [h1] at hd
        exact absurd hd (by decide)
      · subst h2; exact absurd h1 (by decide)
      · subst h2; exact absurd h1 (by decide)
      · subst h2; exact absurd h1 (by decide)
    · rcases h with ((h2 | h2) | h2) | h2
      · have hd : '0'.val ≤ c.val ∧ c.val ≤ '9'.val := by
          unfold Char.isDigit at h2
          simp [Bool.and_eq_true] at h2
          exact h2
        rw [h1] at hd
        exact absurd hd (by decide)
      · subst h2; exact absurd h1 (by decide)
      · subst h2; exact absurd h1 (by decide)
      · subst h2; exact absurd h1 (by decide)

/-- Whitespace characters are not asterisks. -/
theorem isJsWs_not_star {c : Char} (h : isJsWs c = true) : ¬ c = '*' := by
  intro hc
  subst hc
  exact absurd h (by decide)

/-- Stripped control characters are not asterisks. -/
theorem isStripCtl_not_star {c : Char} (h : isStripCtl c = true) : ¬ c = '*' := by
  intro hc
  subst hc
  exact absurd h (by decide)

/-- Stripped control characters are not line terminators (LF and CR are
deliberately excluded from the stripped class in the source). -/
theorem isStripCtl_not_term {c : Char} (h : isStripCtl c = true) :
    isLineTerm c = false := by
  cases hl : isLineTerm c
  · rfl
  · exfalso
    unfold isLineTerm at hl
    simp only [Bool.or_eq_true, decide_eq_true_eq] at hl
    unfold isStripCtl at h
    rcases hl with ((h1 | h1) | h1) | h1
    · subst h1; exact absurd h (by decide)
    · subst h1; exact absurd h (by decide)
    · rw [h1] at h; exact absurd h (by decide)
    · rw [h1] at h; exact absurd h (by decide)

/-- Core invariant of the `*`-pair stripping pass: whatever the input, the
output never holds two asterisks inside one line segment.  Matched pairs are
removed (the captured group is star-free); a lone `*` is emitted only when
the rest of its line segment holds no `*` at all. -/
theorem italic_star_scan :
    ∀ (f : Nat) (l : List Char) (seen : Bool), l.length < f →
      (seen = true → '*' ∉ l.takeWhile (fun c => !(isLineTerm c))) →
      starScan seen (lazyPairsF (str "*") (str "*") id f l) = true := by
  have hstarterm : isLineTerm '*' = false := by decide
  intro f
  induction f with
  | zero => intro l seen hf _; exact absurd hf (Nat.not_lt_zero _)
  | succ f ih =>
    intro l seen hf hsc
    cases l with
    | nil => rfl
    | cons x xs =>
      have hflen : xs.length < f := by
        have hf2 : (x :: xs).length < f + 1 := hf
        simp only [List.length_cons] at hf2
        omega
      by_cases hpre : isPrefixL (str "*") (x :: xs) = true
      · obtain ⟨t, ht⟩ := (isPrefixL_iff _ _).1 hpre
        have ht2 : '*' :: t = x :: xs := ht
        injection ht2 with hx hxs
        subst hxs
        have hseen : seen = false := by
          cases hs : seen
          · rfl
          · exfalso
            refine hsc hs ?_
            rw [List.takeWhile_cons, if_pos (by rw [← hx]; simp [hstarterm])]
            rw [← hx]
            exact List.mem_cons_self _ _
        subst hseen
        rw [lazyPairsF, if_pos hpre]
        have hdrop : (x :: t).drop (str "*").length = t := rfl
        simp only [hdrop]
        cases hsp : splitFirst (str "*") (t.takeWhile fun c => !(isLineTerm c)) with
        | none =>
          show starScan false (x :: lazyPairsF (str "*") (str "*") id f t) = true
          rw [← hx, starScan, if_neg (by simp [hstarterm]), if_pos rfl]
          rw [Bool.not_false, Bool.true_and]
          refine ih t true hflen ?_
          intro hh
          exact splitFirst_single_none hsp
        | some ab =>
          obtain ⟨mid, segRest⟩ := ab
          show starScan false (id mid ++ lazyPairsF (str "*") (str "*") id f
              (segRest ++
                t.drop (t.takeWhile (fun c => !(isLineTerm c))).length)) = true
          have hdec : mid ++ str "*" ++ segRest =
              t.takeWhile (fun c => !(isLineTerm c)) := splitFirst_eq_some hsp
          have hmidstar : '*' ∉ mid := splitFirst_single_some hsp
          have hmidterm : ∀ c ∈ mid, isLineTerm c = false := by
            intro c hc
            have hmem : c ∈ t.takeWhile (fun c => !(isLineTerm c)) := by
              rw [← hdec]
              exact List.mem_append_left _ (List.mem_append_left _ hc)
            have := List.mem_takeWhile_imp hmem
            simp at this
            exact this
          simp only [id_eq]
          rw [star_scan_skip mid hmidstar hmidterm false _]
          have hseglen : (t.takeWhile (fun c => !(isLineTerm c))).length ≤ t.length :=
            (List.takeWhile_prefix _).length_le
          have hdeclen : mid.length + 1 + segRest.length =
              (t.takeWhile (fun c => !(isLineTerm c))).length := by
            rw [← hdec]
            simp [str]
            omega
          refine ih (segRest ++
              t.drop (t.takeWhile (fun c => !(isLineTerm c))).length) false ?_
            (fun h => absurd h (by decide))
          rw [List.length_append, List.length_drop]
          omega
      · have hxne : ¬ x = '*' := by
          intro h
          apply hpre
          subst h
          exact (isPrefixL_iff _ _).2 ⟨xs, rfl⟩
        rw [lazyPairsF, if_neg hpre, starScan]
        by_cases hterm : isLineTerm x = true
        · rw [if_pos hterm]
          exact ih xs false hflen (fun h => absurd h (by decide))
        · rw [if_neg hterm, if_neg hxne]
          refine ih xs seen hflen ?_
          intro hs
          have h0 := hsc hs
          rw [List.takeWhile_cons,
            if_pos (by simp [Bool.not_eq_true] at hterm ⊢; exact hterm)] at h0
          exact fun contra => h0 (List.mem_cons_of_mem x contra)

/-- If a pattern occurs nowhere in a text, it neither prefixes it nor occurs
in the tail. -/
theorem hasSub_cons {p : List Char} {c : Char} {cs : List Char}
    (h : hasSub p (c :: cs) = false) :
    isPrefixL p (c :: cs) = false ∧ hasSub p cs = false := by
  unfold hasSub at h ⊢
  rw [splitFirst] at h
  by_cases hp : isPrefixL p (c :: cs) = true
  · rw [if_pos hp] at h
    exact absurd (show (true : Bool) = false from h) (by decide)
  · rw [if_neg hp] at h
    refine ⟨by rw [Bool.not_eq_true] at hp; exact hp, ?_⟩
    cases hs : splitFirst p cs with
    | none => rfl
    | some ab =>
      obtain ⟨a, b⟩ := ab
      simp only [hs] at h
      exact absurd (show (true : Bool) = false from h) (by decide)

/-- A lazy-pair replacement pass is the identity when its opening delimiter
occurs nowhere in the text. -/
theorem lazyPairsF_id_nosub (opn cls : List Char) (rep : List Char → List Char) :
    ∀ (f : Nat) (l : List Char), hasSub opn l = false →
      lazyPairsF opn cls rep f l = l := by
  intro f
  induction f with
  | zero => intro l _; rfl
  | succ f ih =>
    intro l h
    cases l with
    | nil => rfl
    | cons c cs =>
      obtain ⟨h1, h2⟩ := hasSub_cons h
      rw [lazyPairsF, if_neg (by simp [h1])]
      exact congrArg (c :: ·) (ih cs h2)

/-- A scan-accepted text contains no `**` substring. -/
theorem star_scan_hasSub_dstar {l : List Char} (h : starScan false l = true) :
    hasSub (str "**") l = false := by
  cases hh : hasSub (str "**") l
  · rfl
  · exfalso
    unfold hasSub at hh
    cases hs : splitFirst (str "**") l with
    | none => rw [hs] at hh; exact absurd hh (by decide)
    | some ab =>
      obtain ⟨a, b⟩ := ab
      have hd := splitFirst_eq_some hs
      have hstr : str "**" = ['*', '*'] := rfl
      rw [hstr, List.append_assoc] at hd
      rw [← hd] at h
      simp only [List.cons_append, List.nil_append] at h
      rw [star_scan_dstar] at h
      exact absurd h (by decide)

/-- A scan-accepted text contains no `- **` substring. -/
theorem star_scan_hasSub_bullet {l : List Char} (h : starScan false l = true) :
    hasSub (str "- **") l = false := by
  cases hh : hasSub (str "- **") l
  · rfl
  · exfalso
    unfold hasSub at hh
    cases hs : splitFirst (str "- **") l with
    | none => rw [hs] at hh; exact absurd hh (by decide)
    | some ab =>
      obtain ⟨a, b⟩ := ab
      have hd := splitFirst_eq_some hs
      have hstr : str "- **" = ['-', ' ', '*', '*'] := rfl
      rw [hstr, List.append_assoc] at hd
      rw [← hd] at h
      simp only [List.cons_append, List.nil_append] at h
      rw [show a ++ '-' :: ' ' :: '*' :: '*' :: b =
        (a ++ ['-', ' ']) ++ '*' :: '*' :: b by simp] at h
      rw [star_scan_dstar] at h
      exact absurd h (by decide)

/-- The citation stripper preserves scan acceptance: it deletes only
bracketed runs of digits, commas and brackets, none of which is an asterisk
or a line terminator. -/
theorem stripRefsF_star_scan :
    ∀ (f : Nat) (l : List Char) (seen : Bool), starScan seen l = true →
      starScan seen (stripRefsF f l) = true := by
  intro f
  induction f with
  | zero => intro l seen h; exact h
  | succ f ih =>
    intro l seen h
    cases l with
    | nil => exact h
    | cons c cs =>
      by_cases hc : c = '['
      · have hterm : isLineTerm c = false := by subst hc; decide
        have hstar : ¬ c = '*' := by subst hc; decide
        have hcs : starScan seen cs = true := by
          rw [starScan, if_neg (by simp [hterm]), if_neg hstar] at h
          exact h
        simp only [stripRefsF]
        rw [if_pos hc]
        cases hs : splitLastC ']' (cs.takeWhile refClass) with
        | none =>
          simp only [hs]
          rw [starScan, if_neg (by simp [hterm]), if_neg hstar]
          exact ih cs seen hcs
        | some pq =>
          obtain ⟨p, q⟩ := pq
          simp only [hs]
          by_cases hp : p.isEmpty
          · rw [if_pos hp]
            rw [starScan, if_neg (by simp [hterm]), if_neg hstar]
            exact ih cs seen hcs
          · rw [if_neg hp]
            have hrun : p ++ [']'] ++ q = cs.takeWhile refClass := splitLastC_eq_some hs
            have hdecomp : (p ++ [']']) ++
                (q ++ cs.drop (cs.takeWhile refClass).length) = cs := by
              calc (p ++ [']']) ++ (q ++ cs.drop (cs.takeWhile refClass).length)
                  = (p ++ [']'] ++ q) ++ cs.drop (cs.takeWhile refClass).length := by
                    simp [List.append_assoc]
                _ = cs.takeWhile refClass ++ cs.drop (cs.takeWhile refClass).length := by
                    rw [hrun]
                _ = cs := takeWhile_append_drop refClass cs
            have hmemrun : ∀ d ∈ p ++ [']'], refClass d = true := by
              intro d hd
              have hmem : d ∈ cs.takeWhile refClass := by
                rw [← hrun]
                exact List.mem_append_left _ hd
              exact List.mem_takeWhile_imp hmem
            have h2 : starScan seen (q ++ cs.drop (cs.takeWhile refClass).length) = true := by
              rw [← star_scan_skip (p ++ [']'])
                (fun hmem => refClass_not_star (hmemrun '*' hmem) rfl)
                (fun d hd => refClass_not_term (hmemrun d hd)) seen _]
              rw [hdecomp]
              exact hcs
            exact ih _ seen h2
      · simp only [stripRefsF]
        rw [if_neg hc]
        rw [starScan] at h ⊢
        by_cases ht : isLineTerm c = true
        · rw [if_pos ht] at h ⊢
          exact ih cs false h
        · rw [if_neg ht] at h ⊢
          by_cases hstar : c = '*'
          · rw [if_pos hstar] at h ⊢
            rw [Bool.and_eq_true] at h ⊢
            exact ⟨h.1, ih cs true h.2⟩
          · rw [if_neg hstar] at h ⊢
            exact ih cs seen h

/-- The blank-line collapser preserves scan acceptance: it deletes only
whitespace (never an asterisk) and its replacement is two newlines, so no
line segment gains a star. -/
theorem collapseNLF_star_scan :
    ∀ (f : Nat) (l : List Char) (seen : Bool), starScan seen l = true →
      starScan seen (collapseNLF f l) = true := by
  have hnl : isLineTerm '\n' = true := by decide
  intro f
  induction f with
  | zero => intro l seen h; exact h
  | succ f ih =>
    intro l seen h
    cases l with
    | nil => exact h
    | cons c cs =>
      by_cases hc : c = '\n'
      · have hterm : isLineTerm c = true := by subst hc; decide
        have hcs : starScan false cs = true := by
          rw [starScan, if_pos hterm] at h
          exact h
        simp only [collapseNLF]
        rw [if_pos hc]
        cases hs : splitLastC '\n' (cs.takeWhile isJsWs) with
        | none =>
          simp only [hs]
          rw [starScan, if_pos hterm]
          exact ih cs false hcs
        | some pq =>
          obtain ⟨p, q⟩ := pq
          simp only [hs]
          by_cases hp : p.contains '\n'
          · rw [if_pos hp]
            have hrun : p ++ ['\n'] ++ q = cs.takeWhile isJsWs := splitLastC_eq_some hs
            have hdecomp : p ++
                ('\n' :: (q ++ cs.drop (cs.takeWhile isJsWs).length)) = cs := by
              calc p ++ ('\n' :: (q ++ cs.drop (cs.takeWhile isJsWs).length))
                  = (p ++ ['\n'] ++ q) ++ cs.drop (cs.takeWhile isJsWs).length := by
                    simp [List.append_assoc]
                _ = cs.takeWhile isJsWs ++ cs.drop (cs.takeWhile isJsWs).length := by
                    rw [hrun]
                _ = cs := takeWhile_append_drop isJsWs cs
            have hmemp : ∀ d ∈ p, isJsWs d = true := by
              intro d hd
              have hmem : d ∈ cs.takeWhile isJsWs := by
                rw [← hrun]
                exact List.mem_append_left _ (List.mem_append_left _ hd)
              exact List.mem_takeWhile_imp hmem
            have h2 : starScan false (q ++ cs.drop (cs.takeWhile isJsWs).length) = true := by
              have h3 := hcs
              rw [← hdecomp] at h3
              rw [star_scan_skip_false p
                (fun hmem => isJsWs_not_star (hmemp '*' hmem) rfl)] at h3
              rw [starScan, if_pos hnl] at h3
              exact h3
            rw [starScan, if_pos hnl, starScan, if_pos hnl]
            exact ih _ false h2
          · rw [if_neg hp]
            rw [starScan, if_pos hterm]
            exact ih cs false hcs
      · simp only [collapseNLF]
        rw [if_neg hc]
        rw [starScan] at h ⊢
        by_cases ht : isLineTerm c = true
        · rw [if_pos ht] at h ⊢
          exact ih cs false h
        · rw [if_neg ht] at h ⊢
          by_cases hstar : c = '*'
          · rw [if_pos hstar] at h ⊢
            rw [Bool.and_eq_true] at h ⊢
            exact ⟨h.1, ih cs true h.2⟩
          · rw [if_neg hstar] at h ⊢
            exact ih cs seen h

/-- An XML escape preserves scan acceptance when its target is neither `*`
nor a terminator and its replacement is star- and terminator-free. -/
theorem replaceCharL_star_scan (t : Char) (r : List Char)
    (htterm : isLineTerm t = false) (htstar : ¬ t = '*')
    (hrstar : '*' ∉ r) (hrterm : ∀ c ∈ r, isLineTerm c = false) :
    ∀ (l : List Char) (seen : Bool), starScan seen l = true →
      starScan seen (replaceCharL t r l) = true := by
  intro l
  induction l with
  | nil => intro seen h; exact h
  | cons c cs ih =>
    intro seen h
    rw [replaceCharL]
    by_cases hc : c = t
    · rw [if_pos hc]
      have hcs : starScan seen cs = true := by
        rw [starScan, if_neg (by rw [hc]; simp [htterm]),
          if_neg (by rw [hc]; exact htstar)] at h
        exact h
      rw [star_scan_skip r hrstar hrterm seen _]
      exact ih seen hcs
    · rw [if_neg hc]
      rw [starScan] at h ⊢
      by_cases ht : isLineTerm c = true
      · rw [if_pos ht] at h ⊢
        exact ih false h
      · rw [if_neg ht] at h ⊢
        by_cases hstar : c = '*'
        · rw [if_pos hstar] at h ⊢
          rw [Bool.and_eq_true] at h ⊢
          exact ⟨h.1, ih true h.2⟩
        · rw [if_neg hstar] at h ⊢
          exact ih seen h

/-- The control-character filter preserves scan acceptance: the stripped
class contains no asterisk and no line terminator. -/
theorem filter_ctl_star_scan :
    ∀ (l : List Char) (seen : Bool), starScan seen l = true →
      starScan seen (l.filter (fun c => !(isStripCtl c))) = true := by
  intro l
  induction l with
  | nil => intro seen h; exact h
  | cons c cs ih =>
    intro seen h
    rw [List.filter_cons]
    by_cases hctl : isStripCtl c = true
    · rw [if_neg (by simp [hctl])]
      have hterm := isStripCtl_not_term hctl
      have hstar := isStripCtl_not_star hctl
      have hcs : starScan seen cs = true := by
        rw [starScan, if_neg (by simp [hterm]), if_neg hstar] at h
        exact h
      exact ih seen hcs
    · rw [Bool.not_eq_true] at hctl
      rw [if_pos (by simp [hctl])]
      rw [starScan] at h ⊢
      by_cases ht : isLineTerm c = true
      · rw [if_pos ht] at h ⊢
        exact ih false h
      · rw [if_neg ht] at h ⊢
        by_cases hstar : c = '*'
        · rw [if_pos hstar] at h ⊢
          rw [Bool.and_eq_true] at h ⊢
          exact ⟨h.1, ih true h.2⟩
        · rw [if_neg hstar] at h ⊢
          exact ih seen h

/-- Trimming preserves scan acceptance: the whitespace removed at either end
contains no asterisk. -/
theorem jsTrim_star_scan (l : List Char) (h : starScan false l = true) :
    starScan false (jsTrim l) = true := by
  unfold jsTrim
  have hpre : ∀ d ∈ l.takeWhile isJsWs, isJsWs d = true := fun d hd =>
    List.mem_takeWhile_imp hd
  have h1 : starScan false (l.dropWhile isJsWs) = true := by
    have hdec := List.takeWhile_append_dropWhile isJsWs l
    rw [← hdec] at h
    rw [star_scan_skip_false _
      (fun hmem => isJsWs_not_star (hpre '*' hmem) rfl)] at h
    exact h
  have hdec2 := List.takeWhile_append_dropWhile isJsWs (l.dropWhile isJsWs).reverse
  have hsplit : ((l.dropWhile isJsWs).reverse.dropWhile isJsWs).reverse ++
      ((l.dropWhile isJsWs).reverse.takeWhile isJsWs).reverse = l.dropWhile isJsWs := by
    rw [← List.reverse_append, hdec2, List.reverse_reverse]
  rw [← hsplit] at h1
  exact star_scan_append_left _ false _ h1

/-- Every pass of `sanitizeForXML` composed: whatever the provider answer,
the sanitized output never holds two asterisks inside one line segment. -/
theorem sanitizeForXML_star_scan (l : List Char) :
    starScan false (sanitizeForXML l) = true := by
  simp only [sanitizeForXML]
  set s1 := lazyPairsF (str "**") (str "**") id (l.length + 1) l with hs1
  set s2 := lazyPairsF (str "*") (str "*") id (s1.length + 1) s1 with hs2
  set s3 := lazyPairsF (str "- **") (str "**") (fun m => str "• " ++ m)
      (s2.length + 1) s2 with hs3
  set s4 := stripRefsF (s3.length + 1) s3 with hs4
  set s5 := collapseNLF (s4.length + 1) s4 with hs5
  set s6 := replaceCharL '&' (str "&amp;") s5 with hs6
  set s7 := replaceCharL '<' (str "&lt;") s6 with hs7
  set s8 := replaceCharL '>' (str "&gt;") s7 with hs8
  set s9 := s8.filter (fun c => !(isStripCtl c)) with hs9
  have h2 : starScan false s2 = true := by
    rw [hs2]
    exact italic_star_scan (s1.length + 1) s1 false (Nat.lt_succ_self _)
      (fun h => absurd h (by decide))
  have h3 : starScan false s3 = true := by
    have hid : s3 = s2 := by
      rw [hs3]
      exact lazyPairsF_id_nosub _ _ _ _ s2 (star_scan_hasSub_bullet h2)
    rw [hid]
    exact h2
  have h4 : starScan false s4 = true := by
    rw [hs4]
    exact stripRefsF_star_scan _ s3 false h3
  have h5 : starScan false s5 = true := by
    rw [hs5]
    exact collapseNLF_star_scan _ s4 false h4
  have h6 : starScan false s6 = true := by
    rw [hs6]
    exact replaceCharL_star_scan '&' (str "&amp;") (by decide) (by decide)
      (by decide) (by decide) s5 false h5
  have h7 : starScan false s7 = true := by
    rw [hs7]
    exact replaceCharL_star_scan '<' (str "&lt;") (by decide) (by decide)
      (by decide) (by decide) s6 false h6
  have h8 : starScan false s8 = true := by
    rw [hs8]
    exact replaceCharL_star_scan '>' (str "&gt;") (by decide) (by decide)
      (by decide) (by decide) s7 false h7
  have h9 : starScan false s9 = true := by
    rw [hs9]
    exact filter_ctl_star_scan s8 false h8
  exact jsTrim_star_scan s9 h9

/-- C5 (amended): for every provider answer, the v2 sanitizer output
contains no double-asterisk bold marker: the bold and italic passes strip
`*` pairs within each line segment, a lone `*` survives only when the rest
of its line holds no `*`, and no later pass brings two asterisks together.
(The original claim, that no source markup token at all survives, fails:
`#` heading markers pass through `sanitizeForXML` unchanged, and
`formatResponse` can even create a `**` — see the counterexample.) -/
theorem c5_no_double_star (s : List Char) :
    hasSub (str "**") (sanitizeForXML s) = false :=
  star_scan_hasSub_dstar (sanitizeForXML_star_scan s)

/-- C5 witness: a concrete multi-line bold-and-italic answer whose sanitized
form indeed contains no `**`. -/
theorem c5_witness :
    hasSub (str "**")
      (sanitizeForXML
        (str "**Status**: false\n\n*Why*: the **claim** fails [1]")) = false :=
  c5_no_double_star (str "**Status**: false\n\n*Why*: the **claim** fails [1]")

end FactCheckBot
